import Mathlib

/-!
Shallow embedding of the interval heap from `src/cmc/intervalheap.h`
(C Macro Collections), instantiated at element type `Int` with the
standard three-way comparison, together with proofs about the claims of
the specification.

Modelling conventions:
* `size_t` values are `Nat`; arithmetic that can wrap in C carries an
  explicit `% 2^64` (`U64`).
* The element type `V` is `Int`; the zero sentinel `(V){ 0 }` is `0`.
* The allocator always succeeds (allocation failure is an environment
  effect outside the scope of the verified claims); `realloc` keeps the
  prefix of the buffer and fresh nodes are zero-filled (the fresh cells
  are never read before being written by the heap code).
* C loops become fuel-indexed structural recursions; every call site
  supplies fuel that dominates the loop bound, so the model computes.
-/

/-- 2^64, the modulus of `size_t` arithmetic. -/
def U64 : Nat := 18446744073709551616

/-- Three-way comparison on `Int`, the `cmp` field of the value function
table (`f_val->cmp`). -/
def intCmp (a b : Int) : Int :=
  if a < b then -1 else if a = b then 0 else 1

/-- A heap node, `struct SNAME##_node`: `d0` is `data[0]` (min-heap side),
`d1` is `data[1]` (max-heap side). -/
structure IHNode where
  d0 : Int
  d1 : Int
deriving DecidableEq, Repr

/-- The zero-initialised node (`calloc` / `(V){ 0 }`). -/
def zeroNode : IHNode := ⟨0, 0⟩

/-- The interval heap `struct SNAME`: buffer of nodes, node capacity,
nodes in use, elements stored. -/
structure IHeap where
  buffer : List IHNode
  capacity : Nat
  size : Nat
  count : Nat
deriving DecidableEq, Repr

/-- Read node `i` of a buffer (out-of-range reads yield the zero node;
the code never reads out of range on well-formed heaps). -/
def bget (buf : List IHNode) (i : Nat) : IHNode := buf.getD i zeroNode

/-- Write node `i` of a buffer. -/
def bset (buf : List IHNode) (i : Nat) (n : IHNode) : List IHNode := buf.set i n

/-- Write only `data[0]` of node `i`. -/
def set_d0 (buf : List IHNode) (i : Nat) (v : Int) : List IHNode :=
  bset buf i ⟨v, (bget buf i).d1⟩

/-- Write only `data[1]` of node `i`. -/
def set_d1 (buf : List IHNode) (i : Nat) (v : Int) : List IHNode :=
  bset buf i ⟨(bget buf i).d0, v⟩

/-- Element at linear buffer position `i`: `buffer[i / 2].data[i % 2]`. -/
def elem_at (buf : List IHNode) (i : Nat) : Int :=
  if i % 2 = 0 then (bget buf (i / 2)).d0 else (bget buf (i / 2)).d1

/-- `PFX##_new`: fails on capacity `0` or `UINT64_MAX`; allocates
`ceil(capacity / 2)` zeroed nodes. -/
def ih_new (capacity : Nat) : Option IHeap :=
  if capacity = 0 ∨ capacity = U64 - 1 then none
  else
    let cap := if capacity % 2 = 0 then capacity / 2 else (capacity + 1) / 2
    some { buffer := List.replicate cap zeroNode, capacity := cap, size := 0, count := 0 }

/-- `PFX##_empty`. -/
def ih_empty (h : IHeap) : Bool := h.count = 0

/-- `PFX##_full`: `size >= capacity && count % 2 == 0`. -/
def ih_full (h : IHeap) : Bool := h.capacity ≤ h.size && h.count % 2 = 0

/-- `PFX##_count`. -/
def ih_count (h : IHeap) : Nat := h.count

/-- `PFX##_capacity`. -/
def ih_capacity (h : IHeap) : Nat := h.capacity

/-- `PFX##_resize`: no-op (reporting success) when the requested capacity
equals the stored node capacity; failure when the request is below
`count`; otherwise reallocates to `ceil(capacity / 2)` nodes.  The
`(capacity + 1)` sum is `size_t` arithmetic, hence the `% U64`.  `realloc`
keeps the buffer prefix; fresh nodes are modelled zero-filled (the
source `memset`s the range `[capacity, 2*capacity)` of nodes and never
reads any fresh node before writing it). -/
def ih_resize (h : IHeap) (capacity : Nat) : Bool × IHeap :=
  if h.capacity = capacity then (true, h)
  else if capacity < h.count then (false, h)
  else
    let cap := if capacity % 2 = 0 then capacity / 2 else ((capacity + 1) % U64) / 2
    let grown := (h.buffer.take cap) ++ List.replicate (cap - h.buffer.length) zeroNode
    (true, { h with buffer := grown, capacity := cap })

/-- Loop body of `PFX##_impl_float_up_min`, walking from `index` toward
the root and swapping `data[0]` with the parent while strictly smaller. -/
def float_up_min_go (fuel : Nat) (buf : List IHNode) (index : Nat) : List IHNode :=
  match fuel with
  | 0 => buf
  | fuel + 1 =>
    if index = 0 then buf
    else
      let p := (index - 1) / 2
      if 0 ≤ intCmp (bget buf index).d0 (bget buf p).d0 then buf
      else
        let v := (bget buf index).d0
        let pv := (bget buf p).d0
        float_up_min_go fuel (set_d0 (set_d0 buf index pv) p v) p

/-- `PFX##_impl_float_up_min`. -/
def ih_float_up_min (h : IHeap) : IHeap :=
  { h with buffer := float_up_min_go h.size h.buffer (h.size - 1) }

/-- Loop body of `PFX##_impl_float_up_max`.  The node at `size - 1` with
odd `count` has no `data[1]`, so its `data[0]` is compared with and
swapped into the parent's `data[1]`. -/
def float_up_max_go (fuel sz count : Nat) (buf : List IHNode) (index : Nat) : List IHNode :=
  match fuel with
  | 0 => buf
  | fuel + 1 =>
    if index = 0 then buf
    else
      let p := (index - 1) / 2
      if index = sz - 1 ∧ count % 2 ≠ 0 then
        if intCmp (bget buf index).d0 (bget buf p).d1 < 0 then buf
        else
          let v := (bget buf index).d0
          let pv := (bget buf p).d1
          float_up_max_go fuel sz count (set_d0 (set_d1 buf p v) index pv) p
      else
        if intCmp (bget buf index).d1 (bget buf p).d1 < 0 then buf
        else
          let v := (bget buf index).d1
          let pv := (bget buf p).d1
          float_up_max_go fuel sz count (set_d1 (set_d1 buf index pv) p v) p

/-- `PFX##_impl_float_up_max`. -/
def ih_float_up_max (h : IHeap) : IHeap :=
  { h with buffer := float_up_max_go h.size h.size h.count h.buffer (h.size - 1) }

/-- Child selection of `PFX##_impl_float_down_max`: the child with the
larger max-side value, where the last node with odd `count` contributes
its `data[0]`. -/
def fdmax_child (sz count : Nat) (buf : List IHNode) (index : Nat) : Nat :=
  let L := 2 * index + 1
  let R := 2 * index + 2
  if R < sz then
    if R = sz - 1 ∧ count % 2 ≠ 0 then
      if 0 < intCmp (bget buf L).d1 (bget buf R).d0 then L else R
    else
      if 0 < intCmp (bget buf L).d1 (bget buf R).d1 then L else R
  else L

/-- Loop body of `PFX##_impl_float_down_max`. -/
def float_down_max_go (fuel sz count : Nat) (buf : List IHNode) (index : Nat) : List IHNode :=
  match fuel with
  | 0 => buf
  | fuel + 1 =>
    if sz ≤ 2 * index + 1 then buf
    else
      let child := fdmax_child sz count buf index
      if child = sz - 1 ∧ count % 2 ≠ 0 then
        if 0 ≤ intCmp (bget buf index).d1 (bget buf child).d0 then buf
        else
          let tmp := (bget buf child).d0
          let buf2 := set_d1 (set_d0 buf child (bget buf index).d1) index tmp
          float_down_max_go fuel sz count buf2 child
      else
        if 0 ≤ intCmp (bget buf index).d1 (bget buf child).d1 then buf
        else
          let tmp := (bget buf child).d1
          let buf2 := set_d1 (set_d1 buf child (bget buf index).d1) index tmp
          let buf3 :=
            if 0 < intCmp (bget buf2 child).d0 (bget buf2 child).d1 then
              let a := (bget buf2 child).d0
              let b := (bget buf2 child).d1
              set_d1 (set_d0 buf2 child b) child a
            else buf2
          float_down_max_go fuel sz count buf3 child

/-- `PFX##_impl_float_down_max`. -/
def ih_float_down_max (h : IHeap) : IHeap :=
  { h with buffer := float_down_max_go h.size h.size h.count h.buffer 0 }

/-- Loop body of `PFX##_impl_float_down_min`. -/
def float_down_min_go (fuel sz count : Nat) (buf : List IHNode) (index : Nat) : List IHNode :=
  match fuel with
  | 0 => buf
  | fuel + 1 =>
    if sz ≤ 2 * index + 1 then buf
    else
      let L := 2 * index + 1
      let R := 2 * index + 2
      let child :=
        if R < sz then
          if intCmp (bget buf L).d0 (bget buf R).d0 < 0 then L else R
        else L
      if intCmp (bget buf index).d0 (bget buf child).d0 < 0 then buf
      else
        let tmp := (bget buf child).d0
        let buf2 := set_d0 (set_d0 buf child (bget buf index).d0) index tmp
        let buf3 :=
          if child ≠ sz - 1 ∨ count % 2 = 0 then
            if 0 < intCmp (bget buf2 child).d0 (bget buf2 child).d1 then
              let a := (bget buf2 child).d0
              let b := (bget buf2 child).d1
              set_d1 (set_d0 buf2 child b) child a
            else buf2
          else buf2
        float_down_min_go fuel sz count buf3 child

/-- `PFX##_impl_float_down_min`. -/
def ih_float_down_min (h : IHeap) : IHeap :=
  { h with buffer := float_down_min_go h.size h.size h.count h.buffer 0 }

/-- Placement step of `PFX##_insert` (the code after the growth guard):
an even `count` opens a new node with `data[0] = element`; an odd `count`
completes the last node, swapping so that its `data[0] ≤ data[1]`. -/
def ih_insert_place (h1 : IHeap) (element : Int) : IHeap :=
  if ih_count h1 % 2 = 0 then
    { h1 with buffer := bset h1.buffer h1.size ⟨element, 0⟩, size := h1.size + 1 }
  else
    let node := bget h1.buffer (h1.size - 1)
    if 0 < intCmp node.d0 element then
      { h1 with buffer := bset h1.buffer (h1.size - 1) ⟨element, node.d0⟩ }
    else
      { h1 with buffer := bset h1.buffer (h1.size - 1) ⟨node.d0, element⟩ }

/-- Decision stage of `PFX##_insert`: with more than two elements stored,
choose between the min and the max float-up by comparing the new element
with `buffer[(size - 1) / 2]` (the code's parent formula; for even node
indices at least 2 this is not the tree parent of the last node). -/
def ih_insert_tail (h3 : IHeap) (element : Int) : IHeap :=
  if ih_count h3 ≤ 2 then h3
  else
    let parent := bget h3.buffer ((h3.size - 1) / 2)
    if 0 < intCmp parent.d0 element then ih_float_up_min h3
    else if intCmp parent.d1 element < 0 then ih_float_up_max h3
    else h3

/-- `PFX##_insert` after a successful growth step: place the element,
bump `count`, then run the float-up decision stage. -/
def ih_insert_core (h1 : IHeap) (element : Int) : IHeap :=
  let h2 := ih_insert_place h1 element
  ih_insert_tail { h2 with count := h2.count + 1 } element

/-- `PFX##_insert`.  Returns the C `bool` result together with the heap
after the call (the heap is unchanged on failure, which in the model can
only come from the `resize` guards). -/
def ih_insert (h : IHeap) (element : Int) : Bool × IHeap :=
  if ih_full h then
    let r := ih_resize h (ih_capacity h * 4 % U64)
    if r.1 then (true, ih_insert_core r.2 element) else (false, h)
  else (true, ih_insert_core h element)

/-- `PFX##_remove_max`: `none` models returning `false` on an empty heap;
otherwise the removed value and the resulting heap. -/
def ih_remove_max (h : IHeap) : Option (Int × IHeap) :=
  if ih_empty h then none
  else if ih_count h = 1 then
    some ((bget h.buffer 0).d0, { h with buffer := set_d0 h.buffer 0 0, count := h.count - 1 })
  else
    let result := (bget h.buffer 0).d1
    let h2 :=
      if ih_count h % 2 = 1 then
        let lastv := (bget h.buffer (h.size - 1)).d0
        { h with buffer := set_d0 (set_d1 h.buffer 0 lastv) (h.size - 1) 0,
                 size := h.size - 1 }
      else
        let lastv := (bget h.buffer (h.size - 1)).d1
        { h with buffer := set_d1 (set_d1 h.buffer 0 lastv) (h.size - 1) 0 }
    let h3 := { h2 with count := h2.count - 1 }
    some (result, ih_float_down_max h3)

/-- `PFX##_remove_min`. -/
def ih_remove_min (h : IHeap) : Option (Int × IHeap) :=
  if ih_empty h then none
  else
    let result := (bget h.buffer 0).d0
    if ih_count h = 1 then
      some (result, { h with buffer := set_d0 h.buffer 0 0, count := h.count - 1 })
    else
      let lastv := (bget h.buffer (h.size - 1)).d0
      let buf1 := set_d0 h.buffer 0 lastv
      let h2 :=
        if ih_count h % 2 = 1 then
          { h with buffer := set_d0 buf1 (h.size - 1) 0, size := h.size - 1 }
        else
          let tailv := (bget buf1 (h.size - 1)).d1
          { h with buffer := set_d1 (set_d0 buf1 (h.size - 1) tailv) (h.size - 1) 0 }
      let h3 := { h2 with count := h2.count - 1 }
      some (result, ih_float_down_min h3)

/-- `PFX##_update_max`. -/
def ih_update_max (h : IHeap) (element : Int) : Bool × IHeap :=
  if ih_empty h then (false, h)
  else if ih_count h = 1 then
    (true, { h with buffer := set_d0 h.buffer 0 element })
  else if intCmp element (bget h.buffer 0).d0 < 0 then
    let buf2 := set_d0 (set_d1 h.buffer 0 (bget h.buffer 0).d0) 0 element
    (true, ih_float_down_max { h with buffer := buf2 })
  else
    (true, ih_float_down_max { h with buffer := set_d1 h.buffer 0 element })

/-- `PFX##_update_min`. -/
def ih_update_min (h : IHeap) (element : Int) : Bool × IHeap :=
  if ih_empty h then (false, h)
  else if ih_count h = 1 then
    (true, { h with buffer := set_d0 h.buffer 0 element })
  else if 0 < intCmp element (bget h.buffer 0).d1 then
    let buf2 := set_d1 (set_d0 h.buffer 0 (bget h.buffer 0).d1) 0 element
    (true, ih_float_down_min { h with buffer := buf2 })
  else
    (true, ih_float_down_min { h with buffer := set_d0 h.buffer 0 element })

/-- `PFX##_max` (peek): `none` models the `false` return on empty. -/
def ih_max (h : IHeap) : Option Int :=
  if ih_empty h then none
  else if ih_count h = 1 then some (bget h.buffer 0).d0
  else some (bget h.buffer 0).d1

/-- `PFX##_min` (peek). -/
def ih_min (h : IHeap) : Option Int :=
  if ih_empty h then none
  else some (bget h.buffer 0).d0

/-- Loop of `PFX##_equals`: scan positions from `i`; return `true` at the
first position whose elements compare equal. -/
def equals_go (h1 h2 : IHeap) (fuel i : Nat) : Bool :=
  match fuel with
  | 0 => false
  | fuel + 1 =>
    if i < h1.count then
      if intCmp (elem_at h1.buffer i) (elem_at h2.buffer i) = 0 then true
      else equals_go h1 h2 fuel (i + 1)
    else false

/-- `PFX##_equals`. -/
def ih_equals (h1 h2 : IHeap) : Bool :=
  if ih_count h1 ≠ ih_count h2 then false
  else equals_go h1 h2 h1.count 0

/-- `struct SNAME##_iter` (the bound target heap is passed separately to
each iterator operation). -/
structure IHIter where
  cursor : Nat
  start : Bool
  end_ : Bool
deriving DecidableEq, Repr

/-- `PFX##_iter_init`. -/
def iter_init (h : IHeap) : IHIter :=
  { cursor := 0, start := true, end_ := ih_empty h }

/-- `PFX##_iter_to_start`. -/
def iter_to_start (h : IHeap) (it : IHIter) : IHIter :=
  if ih_empty h then it
  else { cursor := 0, start := true, end_ := ih_empty h }

/-- `PFX##_iter_to_end`. -/
def iter_to_end (h : IHeap) (it : IHIter) : IHIter :=
  if ih_empty h then it
  else { cursor := h.count - 1, start := ih_empty h, end_ := true }

/-- `PFX##_iter_next`. -/
def iter_next (h : IHeap) (it : IHIter) : Bool × IHIter :=
  if it.end_ then (false, it)
  else if it.cursor + 1 = ih_count h then (false, { it with end_ := true })
  else (true, { it with start := ih_empty h, cursor := it.cursor + 1 })

/-- `PFX##_iter_prev`. -/
def iter_prev (h : IHeap) (it : IHIter) : Bool × IHIter :=
  if it.start then (false, it)
  else if it.cursor = 0 then (false, { it with start := true })
  else (true, { it with end_ := ih_empty h, cursor := it.cursor - 1 })

/-- `PFX##_iter_advance`. -/
def iter_advance (h : IHeap) (it : IHIter) (steps : Nat) : Bool × IHIter :=
  if it.start then (false, it)
  else if it.cursor = 0 then (false, { it with start := true })
  else if steps = 0 ∨ ih_count h ≤ it.cursor + steps then (false, it)
  else (true, { it with start := ih_empty h, cursor := it.cursor + steps })

/-- `PFX##_iter_rewind`. -/
def iter_rewind (h : IHeap) (it : IHIter) (steps : Nat) : Bool × IHIter :=
  if it.start then (false, it)
  else if it.cursor = 0 then (false, { it with start := true })
  else if steps = 0 ∨ it.cursor < steps then (false, it)
  else (true, { it with end_ := ih_empty h, cursor := it.cursor - steps })

/-- `PFX##_iter_go_to`. -/
def iter_go_to (h : IHeap) (it : IHIter) (index : Nat) : Bool × IHIter :=
  if ih_count h ≤ index then (false, it)
  else if index < it.cursor then iter_rewind h it (it.cursor - index)
  else if it.cursor < index then iter_advance h it (index - it.cursor)
  else (true, it)

/-- `PFX##_iter_value`: the zero sentinel on an empty heap, else the
element at the cursor's buffer position. -/
def iter_value (h : IHeap) (it : IHIter) : Int :=
  if ih_empty h then 0 else elem_at h.buffer it.cursor

/-- `PFX##_iter_index`. -/
def iter_index (it : IHIter) : Nat := it.cursor

/-- Fold a list of elements through `ih_insert`, keeping the heap. -/
def ih_insert_all (h : IHeap) (l : List Int) : IHeap :=
  l.foldl (fun h e => (ih_insert h e).2) h

/-- Repeatedly `ih_remove_min`, collecting the removed values (at most
`fuel` of them; removal on an empty heap stops the run). -/
def remove_min_run (fuel : Nat) (h : IHeap) : List Int :=
  match fuel with
  | 0 => []
  | fuel + 1 =>
    match ih_remove_min h with
    | none => []
    | some (v, h') => v :: remove_min_run fuel h'

/-- Repeatedly `ih_remove_max`, collecting the removed values. -/
def remove_max_run (fuel : Nat) (h : IHeap) : List Int :=
  match fuel with
  | 0 => []
  | fuel + 1 =>
    match ih_remove_max h with
    | none => []
    | some (v, h') => v :: remove_max_run fuel h'

/-- The dummy heap used to strip the `Option` from `ih_new` at concrete
capacities where `ih_new` is known to succeed. -/
def dummyHeap : IHeap := { buffer := [], capacity := 0, size := 0, count := 0 }

/-! ### Basic facts about the comparator and buffer primitives -/

theorem intCmp_pos_iff {a b : Int} : 0 < intCmp a b ↔ b < a := by
  unfold intCmp
  split_ifs with h1 h2 <;>
    first
    | omega
    | (simp only [false_iff, iff_false, true_iff, iff_true, not_lt, not_le]; omega)

theorem intCmp_neg_iff {a b : Int} : intCmp a b < 0 ↔ a < b := by
  unfold intCmp
  split_ifs with h1 h2 <;>
    first
    | omega
    | (simp only [false_iff, iff_false, true_iff, iff_true, not_lt, not_le]; omega)

theorem intCmp_nonneg_iff {a b : Int} : 0 ≤ intCmp a b ↔ b ≤ a := by
  unfold intCmp
  split_ifs with h1 h2 <;>
    first
    | omega
    | (simp only [false_iff, iff_false, true_iff, iff_true, not_lt, not_le]; omega)

theorem intCmp_nonpos_iff {a b : Int} : intCmp a b ≤ 0 ↔ a ≤ b := by
  unfold intCmp
  split_ifs with h1 h2 <;>
    first
    | omega
    | (simp only [false_iff, iff_false, true_iff, iff_true, not_lt, not_le]; omega)

theorem intCmp_eq_zero_iff {a b : Int} : intCmp a b = 0 ↔ a = b := by
  unfold intCmp
  split_ifs with h1 h2 <;>
    first
    | omega
    | (simp only [false_iff, iff_false, true_iff, iff_true, not_lt, not_le]; omega)

theorem length_bset (buf : List IHNode) (i : Nat) (n : IHNode) :
    (bset buf i n).length = buf.length := List.length_set buf i n

theorem bget_bset_self {buf : List IHNode} {i : Nat} (h : i < buf.length) (n : IHNode) :
    bget (bset buf i n) i = n := by
  simp [bget, bset, List.getD_eq_getElem?_getD, List.getElem?_set_self, h]

theorem bget_bset_ne {buf : List IHNode} {i j : Nat} (h : i ≠ j) (n : IHNode) :
    bget (bset buf i n) j = bget buf j := by
  simp [bget, bset, List.getD_eq_getElem?_getD, List.getElem?_set_ne h]

theorem length_set_d0 (buf : List IHNode) (i : Nat) (v : Int) :
    (set_d0 buf i v).length = buf.length := length_bset ..

theorem length_set_d1 (buf : List IHNode) (i : Nat) (v : Int) :
    (set_d1 buf i v).length = buf.length := length_bset ..

theorem bget_set_d0_ne {buf : List IHNode} {i j : Nat} (h : i ≠ j) (v : Int) :
    bget (set_d0 buf i v) j = bget buf j := bget_bset_ne h _

theorem bget_set_d1_ne {buf : List IHNode} {i j : Nat} (h : i ≠ j) (v : Int) :
    bget (set_d1 buf i v) j = bget buf j := bget_bset_ne h _

theorem bget_set_d0_self {buf : List IHNode} {i : Nat} (h : i < buf.length) (v : Int) :
    bget (set_d0 buf i v) i = ⟨v, (bget buf i).d1⟩ := bget_bset_self h _

theorem bget_set_d1_self {buf : List IHNode} {i : Nat} (h : i < buf.length) (v : Int) :
    bget (set_d1 buf i v) i = ⟨(bget buf i).d0, v⟩ := bget_bset_self h _

/-- `set_d0` never changes any `data[1]` value. -/
theorem d1_set_d0 (buf : List IHNode) (i : Nat) (v : Int) (j : Nat) :
    (bget (set_d0 buf i v) j).d1 = (bget buf j).d1 := by
  rcases eq_or_ne i j with rfl | hne
  · by_cases h : i < buf.length
    · rw [bget_set_d0_self h]
    · unfold set_d0 bset
      rw [List.set_eq_of_length_le (by omega)]
  · rw [bget_set_d0_ne hne]

/-- `set_d1` never changes any `data[0]` value. -/
theorem d0_set_d1 (buf : List IHNode) (i : Nat) (v : Int) (j : Nat) :
    (bget (set_d1 buf i v) j).d0 = (bget buf j).d0 := by
  rcases eq_or_ne i j with rfl | hne
  · by_cases h : i < buf.length
    · rw [bget_set_d1_self h]
    · unfold set_d1 bset
      rw [List.set_eq_of_length_le (by omega)]
  · rw [bget_set_d1_ne hne]

theorem elem_at_even (buf : List IHNode) (j : Nat) :
    elem_at buf (2 * j) = (bget buf j).d0 := by
  unfold elem_at
  rw [if_pos (by omega), Nat.mul_div_cancel_left j (by norm_num)]

theorem elem_at_odd (buf : List IHNode) (j : Nat) :
    elem_at buf (2 * j + 1) = (bget buf j).d1 := by
  unfold elem_at
  rw [if_neg (by omega)]
  have hdiv : (2 * j + 1) / 2 = j := by omega
  rw [hdiv]

/-! ### Concrete heaps used by the claims -/

/-- The heap obtained from `new(6)` followed by inserting `[5,3,8,1,9,2]`. -/
def c2_heap : IHeap := ih_insert_all ((ih_new 6).getD dummyHeap) [5, 3, 8, 1, 9, 2]

/-- C2: from a new heap, inserting `[5,3,8,1,9,2]` and then removing the
minimum repeatedly until empty yields `[1,2,3,5,8,9]`; on a fresh heap with
the same inserts, removing the maximum repeatedly until empty yields
`[9,8,5,3,2,1]`.  (Seven attempted removals produce only six values, so the
heap is indeed drained.) -/
theorem claim_C2_round_trip :
    remove_min_run 7 c2_heap = [1, 2, 3, 5, 8, 9] ∧
    remove_max_run 7 c2_heap = [9, 8, 5, 3, 2, 1] := by
  constructor <;> rfl

/-- `new(2)`, `insert 1`, `remove_min`: the state exhibiting the C3 bug. -/
def c3_heap : IHeap :=
  ((ih_remove_min (ih_insert_all ((ih_new 2).getD dummyHeap) [1])).getD (0, dummyHeap)).2

/-- C3 (code bug): removing the single element of a one-element heap
decrements `count` to `0` but leaves `size = 1`, so `count ∉ {2·size − 1,
2·size}` and `size ≠ 0` while `count = 0`, contrary to the documented
invariant.  The stale `size` then corrupts a subsequent insert: inserting
`7` into this state stores it in node 1 while node 0 holds the zero
sentinel, and `peek_min` reports `0`, a value that was never inserted. -/
theorem claim_C3_singleton_remove_breaks_size :
    c3_heap.count = 0 ∧ c3_heap.size = 1 ∧
    ih_min (ih_insert c3_heap 7).2 = some 0 := by
  refine ⟨rfl, rfl, rfl⟩

/-- A heap holding exactly the three elements `[10, 20, 30]` in buffer
order (node 0 holds `10` and `20`, node 1 holds the pending `30`). -/
def c6_heap : IHeap :=
  { buffer := [⟨10, 20⟩, ⟨30, 0⟩], capacity := 2, size := 2, count := 3 }

/-- Cursor state after `iter_to_start` on `c6_heap`. -/
def c6_it0 : IHIter := iter_to_start c6_heap (iter_init c6_heap)

/-- First `iter_next` call. -/
def c6_step1 : Bool × IHIter := iter_next c6_heap c6_it0

/-- Second `iter_next` call. -/
def c6_step2 : Bool × IHIter := iter_next c6_heap c6_step1.2

/-- Third `iter_next` call. -/
def c6_step3 : Bool × IHIter := iter_next c6_heap c6_step2.2

/-- Fourth `iter_next` call. -/
def c6_step4 : Bool × IHIter := iter_next c6_heap c6_step3.2

/-- C6 counterexample: on the three-element heap `[10,20,30]`, the third
and the fourth `iter_next` calls both return `false`, so `false` is not
returned exactly once on the fourth call as the claim states (the third
call would have to return `true`). -/
theorem claim_C6_counterexample :
    c6_step3.1 = false ∧ c6_step4.1 = false := ⟨rfl, rfl⟩

/-- C6 amended: from `to_start` on the heap `[10,20,30]`, the four
`iter_next` calls return `[true, true, false, false]`: only two advances
succeed, the third call fails while setting the `end` flag with the
cursor still at index 2, and the fourth call fails leaving the cursor
state unchanged. -/
theorem claim_C6_cursor_boundary :
    c6_step1.1 = true ∧ c6_step2.1 = true ∧ c6_step3.1 = false ∧ c6_step4.1 = false ∧
    c6_step2.2.end_ = false ∧ c6_step2.2.cursor = 2 ∧
    c6_step3.2.end_ = true ∧ c6_step3.2.cursor = 2 ∧
    c6_step4.2 = c6_step3.2 := by
  refine ⟨rfl, rfl, rfl, rfl, rfl, rfl, rfl, rfl, rfl⟩

/-- The heap obtained from `new(5)` followed by inserting `[1,2,3,4,5]`:
its node capacity is 3 and its element count is 5. -/
def c7_heap : IHeap := ih_insert_all ((ih_new 5).getD dummyHeap) [1, 2, 3, 4, 5]

/-- C7 counterexample: `resize(3)` on a heap with 5 elements and node
capacity 3 requests a capacity strictly below `count`, yet it returns
success (`true`) because the equality test against the stored node
capacity precedes the `count` check.  (The heap is left unchanged.) -/
theorem claim_C7_counterexample :
    3 < c7_heap.count ∧ ih_resize c7_heap 3 = (true, c7_heap) := by
  exact ⟨by decide, rfl⟩

/-- C7 amended: `resize` with a requested capacity strictly smaller than
the element count leaves the heap completely unchanged, and it returns
failure except in the single case where the request happens to equal the
stored node capacity, where it returns success as a no-op. -/
theorem claim_C7_resize_below_count (h : IHeap) (cap : Nat) (hlt : cap < h.count) :
    ih_resize h cap = (decide (h.capacity = cap), h) := by
  unfold ih_resize
  split_ifs with h1
  · simp [h1]
  · simp [h1]

/-- Witness for C7 at a concrete input: `resize(2)` on the five-element
heap fails and leaves the heap unchanged. -/
theorem claim_C7_witness :
    2 < c7_heap.count ∧ ih_resize c7_heap 2 = (false, c7_heap) := by
  refine ⟨by decide, ?_⟩
  exact (claim_C7_resize_below_count c7_heap 2 (by decide)).trans (by rfl)

/-- The heap obtained from `new(2)` followed by inserting `[1, 2]`: one
full node, `size = capacity = 1`, `count = 2`. -/
def c8_heap : IHeap := ih_insert_all ((ih_new 2).getD dummyHeap) [1, 2]

/-- C8 counterexample: inserting into the full heap with node capacity 1
succeeds and produces capacity 2, not `4 * 1 = 4`: `insert` requests
`resize(capacity * 4)`, but `resize` interprets its argument as an
element capacity and halves it into nodes. -/
theorem claim_C8_counterexample :
    c8_heap.capacity = 1 ∧ ih_full c8_heap = true ∧
    (ih_insert c8_heap 3).1 = true ∧
    (ih_insert c8_heap 3).2.capacity = 2 := ⟨rfl, rfl, rfl, rfl⟩

/-- The core insert step never changes the node capacity. -/
theorem capacity_ih_insert_core (h1 : IHeap) (e : Int) :
    (ih_insert_core h1 e).capacity = h1.capacity := by
  unfold ih_insert_core ih_insert_tail ih_insert_place
  dsimp only
  split_ifs <;> rfl

/-- C8 amended: inserting into a full heap (all nodes used, even count)
succeeds — when the reallocation succeeds, which the model's allocator
always does — and multiplies the reported (node) capacity by 2, not by 4:
`insert` passes `capacity * 4` to `resize`, which interprets the request
as an element capacity and halves it into nodes. -/
theorem claim_C8_growth_doubles_capacity (h : IHeap) (e : Int)
    (h1 : h.size = h.capacity) (h2 : h.count = 2 * h.size) (h3 : 1 ≤ h.capacity)
    (h4 : h.capacity * 4 < U64) :
    (ih_insert h e).1 = true ∧ (ih_insert h e).2.capacity = 2 * h.capacity := by
  have hfull : ih_full h = true := by
    simp only [ih_full, Bool.and_eq_true, decide_eq_true_eq]
    omega
  have hres : ih_resize h (ih_capacity h * 4 % U64) =
      (true, { h with
        buffer := h.buffer.take (2 * h.capacity) ++
          List.replicate (2 * h.capacity - h.buffer.length) zeroNode,
        capacity := 2 * h.capacity }) := by
    have harg : ih_capacity h * 4 % U64 = h.capacity * 4 := Nat.mod_eq_of_lt h4
    unfold ih_resize
    rw [harg, if_neg (by omega), if_neg (by omega)]
    have hcap2 : (if h.capacity * 4 % 2 = 0 then h.capacity * 4 / 2
        else ((h.capacity * 4 + 1) % U64) / 2) = 2 * h.capacity := by
      rw [if_pos (by omega)]; omega
    simp only [hcap2]
  unfold ih_insert
  simp only [hfull, hres, if_true, capacity_ih_insert_core]
  exact ⟨trivial, trivial⟩

/-- Witness for C8 at a concrete input: inserting `3` into the full
two-element heap with node capacity 1 succeeds and doubles the node
capacity. -/
theorem claim_C8_witness :
    (ih_insert c8_heap 3).1 = true ∧ (ih_insert c8_heap 3).2.capacity = 2 * c8_heap.capacity :=
  claim_C8_growth_doubles_capacity c8_heap 3 rfl rfl (by decide) (by decide)

/-- The heap from `new(4)` and inserting `[1, 5]`. -/
def c4_h1 : IHeap := ih_insert_all ((ih_new 4).getD dummyHeap) [1, 5]

/-- The heap from `new(4)` and inserting `[1, 7]`. -/
def c4_h2 : IHeap := ih_insert_all ((ih_new 4).getD dummyHeap) [1, 7]

/-- C4 counterexample: the heaps holding `[1, 5]` and `[1, 7]` have equal
counts, their elements at buffer position 1 differ (`5` vs `7`), yet
`equals` returns `true`: the loop returns `true` at the first matching
position (index 0) instead of requiring every position to match. -/
theorem claim_C4_counterexample :
    ih_equals c4_h1 c4_h2 = true ∧
    c4_h1.count = c4_h2.count ∧ c4_h1.count = 2 ∧
    intCmp (elem_at c4_h1.buffer 1) (elem_at c4_h2.buffer 1) ≠ 0 := by
  exact ⟨rfl, rfl, rfl, by decide⟩

/-- Membership scan of `equals`: `equals_go h1 h2 fuel i` (with enough
fuel) is `true` exactly when some position `j ∈ [i, count)` holds
elements comparing equal. -/
theorem equals_go_eq_true_iff (h1 h2 : IHeap) :
    ∀ fuel i, h1.count ≤ i + fuel →
    (equals_go h1 h2 fuel i = true ↔
      ∃ j, i ≤ j ∧ j < h1.count ∧ intCmp (elem_at h1.buffer j) (elem_at h2.buffer j) = 0) := by
  intro fuel
  induction fuel with
  | zero =>
    intro i hle
    simp only [equals_go, Bool.false_eq_true, false_iff]
    rintro ⟨j, hij, hjc, -⟩
    omega
  | succ f ih =>
    intro i hle
    by_cases hi : i < h1.count
    · by_cases hcmp : intCmp (elem_at h1.buffer i) (elem_at h2.buffer i) = 0
      · simp only [equals_go, if_pos hi, if_pos hcmp, eq_self_iff_true, true_iff]
        exact ⟨i, le_refl i, hi, hcmp⟩
      · have hstep : equals_go h1 h2 (f + 1) i = equals_go h1 h2 f (i + 1) := by
          simp [equals_go, hi, hcmp]
        rw [hstep, ih (i + 1) (by omega)]
        constructor
        · rintro ⟨j, hij, hjc, hj⟩
          exact ⟨j, by omega, hjc, hj⟩
        · rintro ⟨j, hij, hjc, hj⟩
          refine ⟨j, ?_, hjc, hj⟩
          rcases Nat.eq_or_lt_of_le hij with rfl | hlt
          · exact absurd hj hcmp
          · omega
    · have hstep : equals_go h1 h2 (f + 1) i = false := by simp [equals_go, hi]
      rw [hstep]
      simp only [Bool.false_eq_true, false_iff]
      rintro ⟨j, hij, hjc, -⟩
      omega

/-- C4 amended: for every pair of heaps, `equals` returns `true` iff the
counts agree and at least one buffer position below `count` holds
elements comparing equal under the compare function (in particular two
empty heaps never compare equal). -/
theorem claim_C4_equals_first_match (h1 h2 : IHeap) :
    ih_equals h1 h2 = true ↔
      (h1.count = h2.count ∧
        ∃ j, j < h1.count ∧ intCmp (elem_at h1.buffer j) (elem_at h2.buffer j) = 0) := by
  unfold ih_equals
  by_cases hc : ih_count h1 ≠ ih_count h2
  · rw [if_pos hc]
    simp only [Bool.false_eq_true, false_iff]
    rintro ⟨heq, -⟩
    exact hc heq
  · rw [if_neg hc]
    rw [equals_go_eq_true_iff h1 h2 h1.count 0 (by omega)]
    push_neg at hc
    constructor
    · rintro ⟨j, -, hjc, hj⟩
      exact ⟨hc, j, hjc, hj⟩
    · rintro ⟨-, j, hjc, hj⟩
      exact ⟨j, Nat.zero_le j, hjc, hj⟩

/-- The heap from `new(4)` followed by inserting `[10, 20, 30]` (its
buffer order is `[10, 30, 20]`). -/
def c5_heap : IHeap := ih_insert_all ((ih_new 4).getD dummyHeap) [10, 20, 30]

/-- C5 counterexample: on a three-element heap, `seek(1)` (iter_go_to)
from a freshly initialised cursor returns `false` although `1 < count`:
the dispatch to `iter_advance` fails because the fresh cursor has
`start = true` (and cursor 0), so the reachable index 1 cannot be sought.
-/
theorem claim_C5_counterexample :
    1 < c5_heap.count ∧ (iter_go_to c5_heap (iter_init c5_heap) 1).1 = false := by
  exact ⟨by decide, rfl⟩

/-- C5 amended: `seek(index)` with `index ≥ count` fails and leaves the
cursor unchanged.  For `index < count`, the call succeeds iff `index`
already equals the cursor position, or the cursor has `start = false` and
a nonzero position (the advance/rewind dispatch fails from the start
boundary and from position 0); on success, `index()` returns `index` and
`value()` returns the element at buffer position `index` (node
`index / 2`, low slot when even, high slot when odd). -/
theorem claim_C5_seek_semantics (h : IHeap) (it : IHIter) (index : Nat) :
    (h.count ≤ index → iter_go_to h it index = (false, it)) ∧
    (index < h.count →
      (((iter_go_to h it index).1 = true) ↔
        (index = it.cursor ∨ (it.start = false ∧ it.cursor ≠ 0)))) ∧
    (index < h.count → (iter_go_to h it index).1 = true →
      iter_index (iter_go_to h it index).2 = index ∧
      iter_value h (iter_go_to h it index).2 = elem_at h.buffer index) := by
  have hval : ∀ it' : IHIter, index < h.count → it'.cursor = index →
      iter_value h it' = elem_at h.buffer index := by
    intro it' hlt hcur
    unfold iter_value ih_empty
    rw [if_neg (by simp only [decide_eq_true_eq]; omega), hcur]
  refine ⟨?_, ?_, ?_⟩
  · intro hge
    simp [iter_go_to, ih_count, hge]
  all_goals
    intro hlt
    unfold iter_go_to iter_advance iter_rewind
    rw [if_neg (by simp only [ih_count]; omega)]
  · -- success iff characterisation
    rcases lt_trichotomy index it.cursor with hcase | hcase | hcase
    · rw [if_pos hcase]
      by_cases hs : it.start
      · simp only [if_pos hs, Bool.false_eq_true, false_iff]
        push_neg
        refine ⟨by omega, fun hsf => absurd hs (by simp [hsf])⟩
      · rw [if_neg hs, if_neg (by omega), if_neg (by push_neg; omega)]
        simp only [eq_self_iff_true, true_iff]
        exact Or.inr ⟨by simpa using hs, by omega⟩
    · rw [if_neg (by omega), if_neg (by omega)]
      simp only [eq_self_iff_true, true_iff]
      exact Or.inl hcase
    · rw [if_neg (by omega), if_pos hcase]
      by_cases hs : it.start
      · simp only [if_pos hs, Bool.false_eq_true, false_iff]
        push_neg
        refine ⟨by omega, fun hsf => absurd hs (by simp [hsf])⟩
      · rw [if_neg hs]
        by_cases h0 : it.cursor = 0
        · simp only [if_pos h0, Bool.false_eq_true, false_iff]
          push_neg
          exact ⟨by omega, fun _ => h0⟩
        · rw [if_neg h0, if_neg (by simp only [ih_count]; push_neg; omega)]
          simp only [eq_self_iff_true, true_iff]
          exact Or.inr ⟨by simpa using hs, h0⟩
  · -- on success, index and value agree with the buffer order
    rcases lt_trichotomy index it.cursor with hcase | hcase | hcase
    · rw [if_pos hcase]
      by_cases hs : it.start
      · simp [if_pos hs]
      · rw [if_neg hs, if_neg (by omega), if_neg (by push_neg; omega)]
        intro _hh
        constructor
        · dsimp only [iter_index]
          omega
        · refine hval _ hlt ?_
          dsimp only
          omega
    · rw [if_neg (by omega), if_neg (by omega)]
      intro _hh
      constructor
      · dsimp only [iter_index]
        omega
      · refine hval _ hlt ?_
        dsimp only
        omega
    · rw [if_neg (by omega), if_pos hcase]
      by_cases hs : it.start
      · simp [if_pos hs]
      · rw [if_neg hs]
        by_cases h0 : it.cursor = 0
        · simp [if_pos h0]
        · rw [if_neg h0, if_neg (by simp only [ih_count]; push_neg; omega)]
          intro _hh
          constructor
          · dsimp only [iter_index]
            omega
          · refine hval _ hlt ?_
            dsimp only
            omega

/-- Witness for C5 at a concrete input: on the three-element heap, a
cursor at position 2 with cleared flags seeks position 0 successfully,
after which `index()` is 0 and `value()` is the element at buffer
position 0. -/
theorem claim_C5_witness :
    iter_index (iter_go_to c5_heap ⟨2, false, false⟩ 0).2 = 0 ∧
    iter_value c5_heap (iter_go_to c5_heap ⟨2, false, false⟩ 0).2 = elem_at c5_heap.buffer 0 :=
  (claim_C5_seek_semantics c5_heap ⟨2, false, false⟩ 0).2.2 (by decide) (by decide)

/-- Writing `data[1] := b` then `data[0] := a` at node `i` equals writing
the node `⟨a, b⟩`. -/
theorem set_d0_set_d1_same (buf : List IHNode) (i : Nat) (hm : i < buf.length) (a b : Int) :
    set_d0 (set_d1 buf i b) i a = bset buf i ⟨a, b⟩ := by
  unfold set_d0
  rw [bget_set_d1_self hm]
  unfold set_d1 bset
  exact List.set_set ..

/-- Writing `data[0] := a` then `data[1] := b` at node `i` equals writing
the node `⟨a, b⟩`. -/
theorem set_d1_set_d0_same (buf : List IHNode) (i : Nat) (hm : i < buf.length) (a b : Int) :
    set_d1 (set_d0 buf i a) i b = bset buf i ⟨a, b⟩ := by
  unfold set_d1
  rw [bget_set_d0_self hm]
  unfold set_d0 bset
  exact List.set_set ..

/-- C9: on an empty heap both updates fail; with `count = 1` the single
element is replaced in place with no float-down; with `count ≥ 2`,
`update_max` with a replacement below the current minimum first swaps so
the root holds `⟨replacement, former minimum⟩` and `update_min` with a
replacement above the current maximum swaps so the root holds
`⟨former maximum, replacement⟩`; in every `count ≥ 2` case the matching
float-down pass then runs. -/
theorem claim_C9_update_root_swap (h : IHeap) (el : Int) (hlen : 0 < h.buffer.length) :
    (h.count = 0 → ih_update_max h el = (false, h) ∧ ih_update_min h el = (false, h)) ∧
    (h.count = 1 →
      ih_update_max h el = (true, { h with buffer := bset h.buffer 0 ⟨el, (bget h.buffer 0).d1⟩ }) ∧
      ih_update_min h el = (true, { h with buffer := bset h.buffer 0 ⟨el, (bget h.buffer 0).d1⟩ })) ∧
    (2 ≤ h.count → el < (bget h.buffer 0).d0 →
      ih_update_max h el =
        (true, ih_float_down_max { h with buffer := bset h.buffer 0 ⟨el, (bget h.buffer 0).d0⟩ })) ∧
    (2 ≤ h.count → (bget h.buffer 0).d0 ≤ el →
      ih_update_max h el =
        (true, ih_float_down_max { h with buffer := bset h.buffer 0 ⟨(bget h.buffer 0).d0, el⟩ })) ∧
    (2 ≤ h.count → (bget h.buffer 0).d1 < el →
      ih_update_min h el =
        (true, ih_float_down_min { h with buffer := bset h.buffer 0 ⟨(bget h.buffer 0).d1, el⟩ })) ∧
    (2 ≤ h.count → el ≤ (bget h.buffer 0).d1 →
      ih_update_min h el =
        (true, ih_float_down_min { h with buffer := bset h.buffer 0 ⟨el, (bget h.buffer 0).d1⟩ })) := by
  refine ⟨?_, ?_, ?_, ?_, ?_, ?_⟩
  · intro hc
    constructor <;> simp [ih_update_max, ih_update_min, ih_empty, hc]
  · intro hc
    have hne : ¬(ih_empty h = true) := by simp [ih_empty, hc]
    have h1 : ih_count h = 1 := hc
    constructor
    · unfold ih_update_max
      rw [if_neg hne, if_pos h1]
      rfl
    · unfold ih_update_min
      rw [if_neg hne, if_pos h1]
      rfl
  · intro hc hel
    have hne : ¬(ih_empty h = true) := by simp [ih_empty]; omega
    have h1 : ¬(ih_count h = 1) := by simp [ih_count]; omega
    unfold ih_update_max
    rw [if_neg hne, if_neg h1, if_pos (intCmp_neg_iff.mpr hel),
      set_d0_set_d1_same h.buffer 0 hlen el (bget h.buffer 0).d0]
  · intro hc hel
    have hne : ¬(ih_empty h = true) := by simp [ih_empty]; omega
    have h1 : ¬(ih_count h = 1) := by simp [ih_count]; omega
    unfold ih_update_max
    rw [if_neg hne, if_neg h1, if_neg (by rw [intCmp_neg_iff]; omega)]
    unfold set_d1 bset
    rfl
  · intro hc hel
    have hne : ¬(ih_empty h = true) := by simp [ih_empty]; omega
    have h1 : ¬(ih_count h = 1) := by simp [ih_count]; omega
    unfold ih_update_min
    rw [if_neg hne, if_neg h1, if_pos (intCmp_pos_iff.mpr hel),
      set_d1_set_d0_same h.buffer 0 hlen (bget h.buffer 0).d1 el]
  · intro hc hel
    have hne : ¬(ih_empty h = true) := by simp [ih_empty]; omega
    have h1 : ¬(ih_count h = 1) := by simp [ih_count]; omega
    unfold ih_update_min
    rw [if_neg hne, if_neg h1, if_neg (by rw [intCmp_pos_iff]; omega)]
    unfold set_d0 bset
    rfl

/-- The max float-down only swaps buffer cells: the length is kept. -/
theorem length_float_down_max_go :
    ∀ fuel sz count buf index, (float_down_max_go fuel sz count buf index).length = buf.length := by
  intro fuel
  induction fuel with
  | zero => intro sz count buf index; rfl
  | succ f ih =>
    intro sz count buf index
    unfold float_down_max_go
    dsimp only
    split_ifs <;>
      first
      | rfl
      | (rw [ih]; simp [length_set_d0, length_set_d1])

/-- The min float-down only swaps buffer cells: the length is kept. -/
theorem length_float_down_min_go :
    ∀ fuel sz count buf index, (float_down_min_go fuel sz count buf index).length = buf.length := by
  intro fuel
  induction fuel with
  | zero => intro sz count buf index; rfl
  | succ f ih =>
    intro sz count buf index
    unfold float_down_min_go
    dsimp only
    split_ifs <;>
      first
      | rfl
      | (rw [ih]; simp [length_set_d0, length_set_d1])

/-- C10: on a nonempty heap `update_max` and `update_min` succeed and
leave `count`, `size`, `capacity` (and the buffer length) unchanged; only
buffer cell values are modified. -/
theorem claim_C10_update_frame (h : IHeap) (el : Int) (hc : 0 < h.count) :
    (ih_update_max h el).1 = true ∧ (ih_update_min h el).1 = true ∧
    (ih_update_max h el).2.count = h.count ∧ (ih_update_max h el).2.size = h.size ∧
    (ih_update_max h el).2.capacity = h.capacity ∧
    (ih_update_max h el).2.buffer.length = h.buffer.length ∧
    (ih_update_min h el).2.count = h.count ∧ (ih_update_min h el).2.size = h.size ∧
    (ih_update_min h el).2.capacity = h.capacity ∧
    (ih_update_min h el).2.buffer.length = h.buffer.length := by
  have hne : ¬(ih_empty h = true) := by simp [ih_empty]; omega
  unfold ih_update_max ih_update_min ih_float_down_max ih_float_down_min
  rw [if_neg hne]
  refine ⟨?_, ?_, ?_, ?_, ?_, ?_, ?_, ?_, ?_, ?_⟩ <;>
    split_ifs <;>
      simp [length_float_down_max_go, length_float_down_min_go,
        length_set_d0, length_set_d1, bset]

/-- The heap from `new(8)` and inserting `[1, 9, 4, 6]`: root node
`⟨1, 9⟩`, second node `⟨4, 6⟩`, `count = 4`. -/
def c9_heap : IHeap := ih_insert_all ((ih_new 8).getD dummyHeap) [1, 9, 4, 6]

/-- Witness for C9 at concrete inputs: on the four-element heap with root
`⟨1, 9⟩`, `update_max 0` (below the minimum 1) swaps the root to
`⟨0, 1⟩` before the max float-down, and `update_min 20` (above the
maximum 9) swaps the root to `⟨9, 20⟩` before the min float-down. -/
theorem claim_C9_witness :
    ih_update_max c9_heap 0 =
      (true, ih_float_down_max
        { c9_heap with buffer := bset c9_heap.buffer 0 ⟨0, (bget c9_heap.buffer 0).d0⟩ }) ∧
    ih_update_min c9_heap 20 =
      (true, ih_float_down_min
        { c9_heap with buffer := bset c9_heap.buffer 0 ⟨(bget c9_heap.buffer 0).d1, 20⟩ }) :=
  ⟨(claim_C9_update_root_swap c9_heap 0 (by decide)).2.2.1 (by decide) (by decide),
   (claim_C9_update_root_swap c9_heap 20 (by decide)).2.2.2.2.1 (by decide) (by decide)⟩

/-- Witness for C10 at a concrete input: updating the four-element heap
succeeds and keeps `count`, `size` and `capacity`. -/
theorem claim_C10_witness :
    (ih_update_max c9_heap 7).1 = true ∧ (ih_update_min c9_heap 7).1 = true ∧
    (ih_update_max c9_heap 7).2.count = c9_heap.count ∧
    (ih_update_max c9_heap 7).2.size = c9_heap.size ∧
    (ih_update_max c9_heap 7).2.capacity = c9_heap.capacity ∧
    (ih_update_min c9_heap 7).2.count = c9_heap.count ∧
    (ih_update_min c9_heap 7).2.size = c9_heap.size ∧
    (ih_update_min c9_heap 7).2.capacity = c9_heap.capacity := by
  have hw := claim_C10_update_frame c9_heap 7 (by decide)
  exact ⟨hw.1, hw.2.1, hw.2.2.1, hw.2.2.2.1, hw.2.2.2.2.1,
    hw.2.2.2.2.2.2.1, hw.2.2.2.2.2.2.2.1, hw.2.2.2.2.2.2.2.2.1⟩

/-! ### Value containment and float-up lemmas for the insert invariant -/

/-- Every stored value of `buf2` (positions below `count`) already occurs
stored in `buf`. -/
def sub_vals (buf2 buf : List IHNode) (count : Nat) : Prop :=
  ∀ i, i < count → ∃ j, j < count ∧ elem_at buf2 i = elem_at buf j

theorem sub_vals_refl (buf : List IHNode) (count : Nat) : sub_vals buf buf count :=
  fun i hi => ⟨i, hi, rfl⟩

theorem sub_vals_trans {b3 b2 b1 : List IHNode} {count : Nat}
    (h32 : sub_vals b3 b2 count) (h21 : sub_vals b2 b1 count) : sub_vals b3 b1 count := by
  intro i hi
  obtain ⟨j, hj, hev⟩ := h32 i hi
  obtain ⟨k, hk, hev2⟩ := h21 j hj
  exact ⟨k, hk, hev.trans hev2⟩

/-- After `set_d0 buf a x`, the `data[0]` at any node is the written
value or the old one. -/
theorem d0_set_d0_or (buf : List IHNode) (a : Nat) (x : Int) (k : Nat) :
    (bget (set_d0 buf a x) k).d0 = x ∨ (bget (set_d0 buf a x) k).d0 = (bget buf k).d0 := by
  rcases eq_or_ne a k with rfl | hne
  · by_cases hl : a < buf.length
    · rw [bget_set_d0_self hl]
      exact Or.inl rfl
    · right
      unfold set_d0 bset
      rw [List.set_eq_of_length_le (by omega)]
  · right
    rw [bget_set_d0_ne hne]

/-- After `set_d1 buf a x`, the `data[1]` at any node is the written
value or the old one. -/
theorem d1_set_d1_or (buf : List IHNode) (a : Nat) (x : Int) (k : Nat) :
    (bget (set_d1 buf a x) k).d1 = x ∨ (bget (set_d1 buf a x) k).d1 = (bget buf k).d1 := by
  rcases eq_or_ne a k with rfl | hne
  · by_cases hl : a < buf.length
    · rw [bget_set_d1_self hl]
      exact Or.inl rfl
    · right
      unfold set_d1 bset
      rw [List.set_eq_of_length_le (by omega)]
  · right
    rw [bget_set_d1_ne hne]

/-- A double `data[0]` write whose two written values are stored in `buf`
yields a buffer whose stored values all come from `buf`. -/
theorem sub_vals_d0d0 (buf : List IHNode) (a b : Nat) (xa xb : Int) (count ja jb : Nat)
    (hja : ja < count) (hxa : xa = elem_at buf ja)
    (hjb : jb < count) (hxb : xb = elem_at buf jb) :
    sub_vals (set_d0 (set_d0 buf a xa) b xb) buf count := by
  intro i hi
  by_cases he : i % 2 = 0
  · rw [show elem_at (set_d0 (set_d0 buf a xa) b xb) i =
        (bget (set_d0 (set_d0 buf a xa) b xb) (i / 2)).d0 from by
      unfold elem_at; rw [if_pos he]]
    rcases d0_set_d0_or (set_d0 buf a xa) b xb (i / 2) with hv | hv
    · exact ⟨jb, hjb, by rw [hv, hxb]⟩
    · rw [hv]
      rcases d0_set_d0_or buf a xa (i / 2) with hv2 | hv2
      · exact ⟨ja, hja, by rw [hv2, hxa]⟩
      · refine ⟨i, hi, ?_⟩
        rw [hv2]
        unfold elem_at
        rw [if_pos he]
  · refine ⟨i, hi, ?_⟩
    unfold elem_at
    rw [if_neg he, if_neg he, d1_set_d0, d1_set_d0]

/-- A `data[1]` write followed by a `data[0]` write, both of stored
values, yields a buffer whose stored values all come from `buf`. -/
theorem sub_vals_d1d0 (buf : List IHNode) (a b : Nat) (xa xb : Int) (count ja jb : Nat)
    (hja : ja < count) (hxa : xa = elem_at buf ja)
    (hjb : jb < count) (hxb : xb = elem_at buf jb) :
    sub_vals (set_d0 (set_d1 buf a xa) b xb) buf count := by
  intro i hi
  by_cases he : i % 2 = 0
  · rw [show elem_at (set_d0 (set_d1 buf a xa) b xb) i =
        (bget (set_d0 (set_d1 buf a xa) b xb) (i / 2)).d0 from by
      unfold elem_at; rw [if_pos he]]
    rcases d0_set_d0_or (set_d1 buf a xa) b xb (i / 2) with hv | hv
    · exact ⟨jb, hjb, by rw [hv, hxb]⟩
    · refine ⟨i, hi, ?_⟩
      rw [hv, d0_set_d1]
      unfold elem_at
      rw [if_pos he]
  · rw [show elem_at (set_d0 (set_d1 buf a xa) b xb) i =
        (bget (set_d0 (set_d1 buf a xa) b xb) (i / 2)).d1 from by
      unfold elem_at; rw [if_neg he]]
    rw [d1_set_d0]
    rcases d1_set_d1_or buf a xa (i / 2) with hv | hv
    · exact ⟨ja, hja, by rw [hv, hxa]⟩
    · refine ⟨i, hi, ?_⟩
      rw [hv]
      unfold elem_at
      rw [if_neg he]

/-- A double `data[1]` write of stored values yields a buffer whose
stored values all come from `buf`. -/
theorem sub_vals_d1d1 (buf : List IHNode) (a b : Nat) (xa xb : Int) (count ja jb : Nat)
    (hja : ja < count) (hxa : xa = elem_at buf ja)
    (hjb : jb < count) (hxb : xb = elem_at buf jb) :
    sub_vals (set_d1 (set_d1 buf a xa) b xb) buf count := by
  intro i hi
  by_cases he : i % 2 = 0
  · refine ⟨i, hi, ?_⟩
    unfold elem_at
    rw [if_pos he, if_pos he, d0_set_d1, d0_set_d1]
  · rw [show elem_at (set_d1 (set_d1 buf a xa) b xb) i =
        (bget (set_d1 (set_d1 buf a xa) b xb) (i / 2)).d1 from by
      unfold elem_at; rw [if_neg he]]
    rcases d1_set_d1_or (set_d1 buf a xa) b xb (i / 2) with hv | hv
    · exact ⟨jb, hjb, by rw [hv, hxb]⟩
    · rw [hv]
      rcases d1_set_d1_or buf a xa (i / 2) with hv2 | hv2
      · exact ⟨ja, hja, by rw [hv2, hxa]⟩
      · refine ⟨i, hi, ?_⟩
        rw [hv2]
        unfold elem_at
        rw [if_neg he]

/-- Lower bounds on all stored values survive a value-containment step. -/
theorem buf_le_of_sub_vals {m : Int} {buf2 buf : List IHNode} {count : Nat}
    (hs : sub_vals buf2 buf count) (hle : ∀ i, i < count → m ≤ elem_at buf i) :
    ∀ i, i < count → m ≤ elem_at buf2 i := by
  intro i hi
  obtain ⟨j, hj, hev⟩ := hs i hi
  rw [hev]
  exact hle j hj

/-- Upper bounds on all stored values survive a value-containment step. -/
theorem buf_ge_of_sub_vals {M : Int} {buf2 buf : List IHNode} {count : Nat}
    (hs : sub_vals buf2 buf count) (hge : ∀ i, i < count → elem_at buf i ≤ M) :
    ∀ i, i < count → elem_at buf2 i ≤ M := by
  intro i hi
  obtain ⟨j, hj, hev⟩ := hs i hi
  rw [hev]
  exact hge j hj

/-- The min float-up never touches any `data[1]`. -/
theorem fum_d1 : ∀ fuel (buf : List IHNode) index j,
    (bget (float_up_min_go fuel buf index) j).d1 = (bget buf j).d1 := by
  intro fuel
  induction fuel with
  | zero => intro buf index j; rfl
  | succ f ih =>
    intro buf index j
    unfold float_up_min_go
    dsimp only
    split_ifs
    · rfl
    · rfl
    · rw [ih, d1_set_d0, d1_set_d0]

/-- The min float-up keeps the buffer length. -/
theorem fum_len : ∀ fuel (buf : List IHNode) index,
    (float_up_min_go fuel buf index).length = buf.length := by
  intro fuel
  induction fuel with
  | zero => intro buf index; rfl
  | succ f ih =>
    intro buf index
    unfold float_up_min_go
    dsimp only
    split_ifs
    · rfl
    · rfl
    · rw [ih, length_set_d0, length_set_d0]

/-- The min float-up only rearranges stored values (given that the node
it starts from is stored). -/
theorem fum_sub : ∀ fuel (buf : List IHNode) index count, 2 * index < count →
    sub_vals (float_up_min_go fuel buf index) buf count := by
  intro fuel
  induction fuel with
  | zero => intro buf index count _; exact sub_vals_refl _ _
  | succ f ih =>
    intro buf index count hidx
    unfold float_up_min_go
    dsimp only
    split_ifs with h0 hbr
    · exact sub_vals_refl _ _
    · exact sub_vals_refl _ _
    · have hp : (index - 1) / 2 < index := by omega
      refine sub_vals_trans (ih _ _ count (by omega)) ?_
      refine sub_vals_d0d0 buf index ((index - 1) / 2) ((bget buf ((index - 1) / 2)).d0)
        ((bget buf index).d0) count (2 * ((index - 1) / 2)) (2 * index)
        (by omega) (elem_at_even buf _).symm hidx (elem_at_even buf _).symm

/-- Root effect of the min float-up: with every node strictly below
`index` having `data[0]` at least the root's, the float leaves the root
`data[0]` at the minimum of its old value and the started node's value. -/
theorem fum_root : ∀ fuel (buf : List IHNode) index, index < fuel → index < buf.length →
    (∀ j, j < index → (bget buf 0).d0 ≤ (bget buf j).d0) →
    (bget (float_up_min_go fuel buf index) 0).d0 =
      min ((bget buf 0).d0) ((bget buf index).d0) := by
  intro fuel
  induction fuel with
  | zero => intro buf index h; omega
  | succ f ih =>
    intro buf index hfu hlen hj
    unfold float_up_min_go
    dsimp only
    split_ifs with h0 hbr
    · rw [h0, min_self]
    · -- break: parent's data[0] is at most the current one
      rw [intCmp_nonneg_iff] at hbr
      have hp : (index - 1) / 2 < index := by omega
      have : (bget buf 0).d0 ≤ (bget buf index).d0 := le_trans (hj _ hp) hbr
      rw [min_eq_left this]
    · rw [intCmp_nonneg_iff, not_le] at hbr
      have hp : (index - 1) / 2 < index := by omega
      set p := (index - 1) / 2 with hpdef
      set v := (bget buf index).d0 with hvdef
      set pv := (bget buf p).d0 with hpvdef
      set buf2 := set_d0 (set_d0 buf index pv) p v with hbuf2
      have hlen2 : buf2.length = buf.length := by
        rw [hbuf2, length_set_d0, length_set_d0]
      have hgetp : (bget buf2 p).d0 = v := by
        rw [hbuf2]
        rw [bget_set_d0_self (by rw [length_set_d0]; omega)]
      have hrec := ih buf2 p (by omega) (by omega) ?hyp
      case hyp =>
        intro j hjp
        have hj2 : bget buf2 j = bget buf j := by
          rw [hbuf2, bget_set_d0_ne (by omega), bget_set_d0_ne (by omega)]
        by_cases hp0 : p = 0
        · omega
        · have h02 : bget buf2 0 = bget buf 0 := by
            rw [hbuf2, bget_set_d0_ne (by omega), bget_set_d0_ne (by omega)]
          rw [hj2, h02]
          exact hj j (by omega)
      rw [hrec, hgetp]
      by_cases hp0 : p = 0
      · rw [hp0] at hgetp
        have hroot : (bget buf 0).d0 = pv := by rw [hpvdef, hp0]
        rw [hgetp, hroot, min_self, min_eq_right hbr.le]
      · have h02 : bget buf2 0 = bget buf 0 := by
          rw [hbuf2, bget_set_d0_ne (by omega), bget_set_d0_ne (by omega)]
        rw [h02]

/-- The max float-up touches no `data[0]` outside the node `sz - 1`. -/
theorem fux_d0 : ∀ fuel sz count (buf : List IHNode) index j, j ≠ sz - 1 →
    (bget (float_up_max_go fuel sz count buf index) j).d0 = (bget buf j).d0 := by
  intro fuel
  induction fuel with
  | zero => intro sz count buf index j _; rfl
  | succ f ih =>
    intro sz count buf index j hj
    unfold float_up_max_go
    dsimp only
    split_ifs with h0 hodd hbr hbr
    · rfl
    · rfl
    · rw [ih _ _ _ _ _ hj, bget_set_d0_ne (by omega), d0_set_d1]
    · rfl
    · rw [ih _ _ _ _ _ hj, d0_set_d1, d0_set_d1]

/-- The max float-up keeps the buffer length. -/
theorem fux_len : ∀ fuel sz count (buf : List IHNode) index,
    (float_up_max_go fuel sz count buf index).length = buf.length := by
  intro fuel
  induction fuel with
  | zero => intro sz count buf index; rfl
  | succ f ih =>
    intro sz count buf index
    unfold float_up_max_go
    dsimp only
    split_ifs
    · rfl
    · rfl
    · rw [ih, length_set_d0, length_set_d1]
    · rfl
    · rw [ih, length_set_d1, length_set_d1]

/-- The max float-up only rearranges stored values. -/
theorem fux_sub : ∀ fuel sz count (buf : List IHNode) index, index < sz →
    (count = 2 * sz ∨ count + 1 = 2 * sz) →
    sub_vals (float_up_max_go fuel sz count buf index) buf count := by
  intro fuel
  induction fuel with
  | zero => intro sz count buf index _ _; exact sub_vals_refl _ _
  | succ f ih =>
    intro sz count buf index hisz hsz
    unfold float_up_max_go
    dsimp only
    split_ifs with h0 hodd hbr hbr
    · exact sub_vals_refl _ _
    · exact sub_vals_refl _ _
    · refine sub_vals_trans (ih _ _ _ _ (by omega) hsz) ?_
      refine sub_vals_d1d0 buf ((index - 1) / 2) index ((bget buf index).d0)
        ((bget buf ((index - 1) / 2)).d1) count (2 * index) (2 * ((index - 1) / 2) + 1)
        (by omega) (elem_at_even buf _).symm (by omega) (elem_at_odd buf _).symm
    · exact sub_vals_refl _ _
    · refine sub_vals_trans (ih _ _ _ _ (by omega) hsz) ?_
      refine sub_vals_d1d1 buf index ((index - 1) / 2) ((bget buf ((index - 1) / 2)).d1)
        ((bget buf index).d1) count (2 * ((index - 1) / 2) + 1) (2 * index + 1)
        (by omega) (elem_at_odd buf _).symm (by omega) (elem_at_odd buf _).symm

/-- Root effect of the max float-up: with every node strictly below
`index` having `data[1]` at most the root's, the float leaves the root
`data[1]` at the maximum of its old value and the active value of the
started node (its `data[0]` when it is the incomplete last node with odd
count, else its `data[1]`). -/
theorem fux_root : ∀ fuel sz count (buf : List IHNode) index, index < fuel → index < sz →
    2 ≤ sz → sz ≤ buf.length → (count = 2 * sz ∨ count + 1 = 2 * sz) →
    (∀ j, j < index → (bget buf j).d1 ≤ (bget buf 0).d1) →
    (bget (float_up_max_go fuel sz count buf index) 0).d1 =
      max ((bget buf 0).d1)
        (if index = sz - 1 ∧ count % 2 ≠ 0 then (bget buf index).d0 else (bget buf index).d1) := by
  intro fuel
  induction fuel with
  | zero => intro sz count buf index h; omega
  | succ f ih =>
    intro sz count buf index hfu hisz hsz2 hszlen hsz hj
    by_cases hodd : index = sz - 1 ∧ count % 2 ≠ 0
    · rw [if_pos hodd]
      unfold float_up_max_go
      dsimp only
      rw [if_neg (show ¬index = 0 by omega), if_pos hodd]
      split_ifs with hbr
      · -- odd break
        rw [intCmp_neg_iff] at hbr
        have hp : (index - 1) / 2 < index := by omega
        exact (max_eq_left (le_of_lt (lt_of_lt_of_le hbr (hj _ hp)))).symm
      · -- odd swap
        rw [intCmp_neg_iff, not_lt] at hbr
        have hp : (index - 1) / 2 < index := by omega
        set p := (index - 1) / 2 with hpdef
        set v := (bget buf index).d0 with hvdef
        set pv := (bget buf p).d1 with hpvdef
        set buf2 := set_d0 (set_d1 buf p v) index pv with hbuf2
        have hgetp : (bget buf2 p).d1 = v := by
          rw [hbuf2, d1_set_d0, bget_set_d1_self (by omega)]
        have hrec := ih sz count buf2 p (by omega) (by omega) hsz2
          (by rw [hbuf2, length_set_d0, length_set_d1]; omega) hsz ?hyp
        case hyp =>
          intro j hjp
          have hj2 : bget buf2 j = bget buf j := by
            rw [hbuf2, bget_set_d0_ne (by omega), bget_set_d1_ne (by omega)]
          by_cases hp0 : p = 0
          · omega
          · have h02 : bget buf2 0 = bget buf 0 := by
              rw [hbuf2, bget_set_d0_ne (by omega), bget_set_d1_ne (by omega)]
            rw [hj2, h02]
            exact hj j (by omega)
        rw [hrec, if_neg (by omega), hgetp]
        by_cases hp0 : p = 0
        · rw [hp0] at hgetp
          have hroot : (bget buf 0).d1 = pv := by rw [hpvdef, hp0]
          rw [hgetp, hroot, max_self, max_eq_right hbr]
        · have h02 : bget buf2 0 = bget buf 0 := by
            rw [hbuf2, bget_set_d0_ne (by omega), bget_set_d1_ne (by omega)]
          rw [h02]
    · rw [if_neg hodd]
      unfold float_up_max_go
      dsimp only
      by_cases h0 : index = 0
      · rw [if_pos h0, h0, max_self]
      · rw [if_neg h0, if_neg hodd]
        split_ifs with hbr
        · -- normal break
          rw [intCmp_neg_iff] at hbr
          have hp : (index - 1) / 2 < index := by omega
          exact (max_eq_left (le_of_lt (lt_of_lt_of_le hbr (hj _ hp)))).symm
        · -- normal swap
          rw [intCmp_neg_iff, not_lt] at hbr
          have hp : (index - 1) / 2 < index := by omega
          set p := (index - 1) / 2 with hpdef
          set v := (bget buf index).d1 with hvdef
          set pv := (bget buf p).d1 with hpvdef
          set buf2 := set_d1 (set_d1 buf index pv) p v with hbuf2
          have hgetp : (bget buf2 p).d1 = v := by
            rw [hbuf2, bget_set_d1_self (by rw [length_set_d1]; omega)]
          have hrec := ih sz count buf2 p (by omega) (by omega) hsz2
            (by rw [hbuf2, length_set_d1, length_set_d1]; omega) hsz ?hyp
          case hyp =>
            intro j hjp
            have hj2 : bget buf2 j = bget buf j := by
              rw [hbuf2, bget_set_d1_ne (by omega), bget_set_d1_ne (by omega)]
            by_cases hp0 : p = 0
            · omega
            · have h02 : bget buf2 0 = bget buf 0 := by
                rw [hbuf2, bget_set_d1_ne (by omega), bget_set_d1_ne (by omega)]
              rw [hj2, h02]
              exact hj j (by omega)
          rw [hrec, if_neg (by omega), hgetp]
          by_cases hp0 : p = 0
          · rw [hp0] at hgetp
            have hroot : (bget buf 0).d1 = pv := by rw [hpvdef, hp0]
            rw [hgetp, hroot, max_self, max_eq_right hbr]
          · have h02 : bget buf2 0 = bget buf 0 := by
              rw [hbuf2, bget_set_d1_ne (by omega), bget_set_d1_ne (by omega)]
            rw [h02]

/-! ### The insert invariant and claim C1 -/

/-- The float-up decision stage preserves the structural fields and,
given the placement facts (`P2`-`P4`), establishes the min/max bounds:
afterwards the root's `data[0]` is `min(old root min, e)` and bounds all
stored values from below, and its `data[1]` is `max(old root max, e)`
and bounds them from above. -/
theorem insert_tail_WF (h1 h3 : IHeap) (e : Int)
    (hc1 : 2 ≤ h1.count)
    (hc3 : h3.count = h1.count + 1)
    (hsz3 : 2 ≤ h3.size)
    (len3 : h3.buffer.length = h3.capacity)
    (size_le3 : h3.size ≤ h3.capacity)
    (cs3 : h3.count = 2 * h3.size ∨ h3.count + 1 = 2 * h3.size)
    (P2 : ∀ j, j ≠ h3.size - 1 → bget h3.buffer j = bget h1.buffer j)
    (lb1 : ∀ i, i < h1.count → (bget h1.buffer 0).d0 ≤ elem_at h1.buffer i)
    (ub1 : ∀ i, i < h1.count → elem_at h1.buffer i ≤ (bget h1.buffer 0).d1)
    (P3l : ∀ i, i < h3.count → min ((bget h1.buffer 0).d0) e ≤ elem_at h3.buffer i)
    (P3u : ∀ i, i < h3.count → elem_at h3.buffer i ≤ max ((bget h1.buffer 0).d1) e)
    (P4min : (bget h3.buffer (h3.size - 1)).d0 = e ∨
      ((bget h1.buffer 0).d0 ≤ (bget h3.buffer (h3.size - 1)).d0 ∧
        (bget h3.buffer (h3.size - 1)).d0 ≤ e))
    (P4max : (if h3.count % 2 ≠ 0 then (bget h3.buffer (h3.size - 1)).d0
        else (bget h3.buffer (h3.size - 1)).d1) = e ∨
      (e ≤ (if h3.count % 2 ≠ 0 then (bget h3.buffer (h3.size - 1)).d0
        else (bget h3.buffer (h3.size - 1)).d1) ∧
        (if h3.count % 2 ≠ 0 then (bget h3.buffer (h3.size - 1)).d0
        else (bget h3.buffer (h3.size - 1)).d1) ≤ (bget h1.buffer 0).d1)) :
    (ih_insert_tail h3 e).count = h3.count ∧
    (ih_insert_tail h3 e).size = h3.size ∧
    (ih_insert_tail h3 e).capacity = h3.capacity ∧
    (ih_insert_tail h3 e).buffer.length = h3.buffer.length ∧
    (∀ i, i < h3.count →
      (bget (ih_insert_tail h3 e).buffer 0).d0 ≤ elem_at (ih_insert_tail h3 e).buffer i) ∧
    (∀ i, i < h3.count →
      elem_at (ih_insert_tail h3 e).buffer i ≤ (bget (ih_insert_tail h3 e).buffer 0).d1) := by
  have hc3' : 2 < h3.count := by omega
  have hcount_ge : 2 * h3.size - 1 ≤ h3.count := by omega
  have hroot3 : bget h3.buffer 0 = bget h1.buffer 0 := P2 0 (by omega)
  have hwp_lt : (h3.size - 1) / 2 < h3.size - 1 := by omega
  have hparent : bget h3.buffer ((h3.size - 1) / 2) = bget h1.buffer ((h3.size - 1) / 2) :=
    P2 _ (by omega)
  have hpar0_lo : (bget h1.buffer 0).d0 ≤ (bget h1.buffer ((h3.size - 1) / 2)).d0 := by
    have := lb1 (2 * ((h3.size - 1) / 2)) (by omega)
    rwa [elem_at_even] at this
  have hpar0_hi : (bget h1.buffer ((h3.size - 1) / 2)).d0 ≤ (bget h1.buffer 0).d1 := by
    have := ub1 (2 * ((h3.size - 1) / 2)) (by omega)
    rwa [elem_at_even] at this
  have hpar1_hi : (bget h1.buffer ((h3.size - 1) / 2)).d1 ≤ (bget h1.buffer 0).d1 := by
    have := ub1 (2 * ((h3.size - 1) / 2) + 1) (by omega)
    rwa [elem_at_odd] at this
  have hJmin : ∀ j, j < h3.size - 1 → (bget h3.buffer 0).d0 ≤ (bget h3.buffer j).d0 := by
    intro j hj
    rw [P2 j (by omega), hroot3]
    have := lb1 (2 * j) (by omega)
    rwa [elem_at_even] at this
  have hJmax : ∀ j, j < h3.size - 1 → (bget h3.buffer j).d1 ≤ (bget h3.buffer 0).d1 := by
    intro j hj
    rw [P2 j (by omega), hroot3]
    have := ub1 (2 * j + 1) (by omega)
    rwa [elem_at_odd] at this
  unfold ih_insert_tail
  rw [if_neg (by simp only [ih_count]; omega)]
  dsimp only
  split_ifs with hd1 hd2
  · -- float-up-min case
    simp only [ih_float_up_min]
    rw [intCmp_pos_iff, hparent] at hd1
    have he_hi : e ≤ (bget h1.buffer 0).d1 := le_trans (le_of_lt hd1) hpar0_hi
    have hsub : sub_vals (float_up_min_go h3.size h3.buffer (h3.size - 1)) h3.buffer h3.count :=
      fum_sub h3.size h3.buffer (h3.size - 1) h3.count (by omega)
    have hroot0 : (bget (float_up_min_go h3.size h3.buffer (h3.size - 1)) 0).d0 =
        min ((bget h3.buffer 0).d0) ((bget h3.buffer (h3.size - 1)).d0) :=
      fum_root h3.size h3.buffer (h3.size - 1) (by omega) (by omega) hJmin
    have hroot0' : (bget (float_up_min_go h3.size h3.buffer (h3.size - 1)) 0).d0 =
        min ((bget h1.buffer 0).d0) e := by
      rw [hroot0, hroot3]
      rcases P4min with hpre | ⟨hlo, hhi⟩
      · rw [hpre]
      · omega
    have hroot1 : (bget (float_up_min_go h3.size h3.buffer (h3.size - 1)) 0).d1 =
        (bget h1.buffer 0).d1 := by
      rw [fum_d1, hroot3]
    refine ⟨trivial, trivial, trivial, fum_len .., ?_, ?_⟩
    · intro i hi
      rw [hroot0']
      exact buf_le_of_sub_vals hsub P3l i hi
    · intro i hi
      rw [hroot1]
      have : elem_at (float_up_min_go h3.size h3.buffer (h3.size - 1)) i ≤
          max ((bget h1.buffer 0).d1) e := buf_ge_of_sub_vals hsub P3u i hi
      omega
  · -- float-up-max case
    simp only [ih_float_up_max]
    rw [intCmp_pos_iff, not_lt, hparent] at hd1
    rw [intCmp_neg_iff, hparent] at hd2
    have he_lo : (bget h1.buffer 0).d0 ≤ e := le_trans hpar0_lo hd1
    have hsub : sub_vals (float_up_max_go h3.size h3.size h3.count h3.buffer (h3.size - 1))
        h3.buffer h3.count :=
      fux_sub h3.size h3.size h3.count h3.buffer (h3.size - 1) (by omega) cs3
    have hroot1 : (bget (float_up_max_go h3.size h3.size h3.count h3.buffer (h3.size - 1)) 0).d1 =
        max ((bget h3.buffer 0).d1)
          (if h3.size - 1 = h3.size - 1 ∧ h3.count % 2 ≠ 0
            then (bget h3.buffer (h3.size - 1)).d0 else (bget h3.buffer (h3.size - 1)).d1) :=
      fux_root h3.size h3.size h3.count h3.buffer (h3.size - 1) (by omega) (by omega) (by omega)
        (by omega) cs3 hJmax
    have hifeq : (if h3.size - 1 = h3.size - 1 ∧ h3.count % 2 ≠ 0
        then (bget h3.buffer (h3.size - 1)).d0 else (bget h3.buffer (h3.size - 1)).d1) =
        (if h3.count % 2 ≠ 0 then (bget h3.buffer (h3.size - 1)).d0
        else (bget h3.buffer (h3.size - 1)).d1) := by
      by_cases hpar : h3.count % 2 ≠ 0
      · rw [if_pos ⟨rfl, hpar⟩, if_pos hpar]
      · rw [if_neg (by tauto), if_neg hpar]
    have hroot1' : (bget (float_up_max_go h3.size h3.size h3.count h3.buffer (h3.size - 1)) 0).d1 =
        max ((bget h1.buffer 0).d1) e := by
      rw [hroot1, hifeq, hroot3]
      rcases P4max with hpre | ⟨hlo, hhi⟩
      · rw [hpre]
      · omega
    have hroot0 : (bget (float_up_max_go h3.size h3.size h3.count h3.buffer (h3.size - 1)) 0).d0 =
        (bget h1.buffer 0).d0 := by
      rw [fux_d0 _ _ _ _ _ _ (by omega), hroot3]
    refine ⟨trivial, trivial, trivial, fux_len .., ?_, ?_⟩
    · intro i hi
      rw [hroot0]
      have : min ((bget h1.buffer 0).d0) e ≤
          elem_at (float_up_max_go h3.size h3.size h3.count h3.buffer (h3.size - 1)) i :=
        buf_le_of_sub_vals hsub P3l i hi
      omega
    · intro i hi
      rw [hroot1']
      exact buf_ge_of_sub_vals hsub P3u i hi
  · -- no float
    rw [intCmp_pos_iff, not_lt, hparent] at hd1
    rw [intCmp_neg_iff, not_lt, hparent] at hd2
    have he_lo : (bget h1.buffer 0).d0 ≤ e := le_trans hpar0_lo hd1
    have he_hi : e ≤ (bget h1.buffer 0).d1 := le_trans hd2 hpar1_hi
    refine ⟨rfl, rfl, rfl, rfl, ?_, ?_⟩
    · intro i hi
      rw [hroot3]
      have := P3l i hi
      omega
    · intro i hi
      rw [hroot3]
      have := P3u i hi
      omega

/-- The heap after completing the last node with `nn` (odd-count
placement) and bumping `count`. -/
def place_odd (h1 : IHeap) (nn : IHNode) : IHeap :=
  { buffer := bset h1.buffer (h1.size - 1) nn, capacity := h1.capacity,
    size := h1.size, count := h1.count + 1 }

/-- The invariant after an odd-count insert (the element completes the
last node, with or without the local swap described by `hnn`). -/
theorem insert_core_odd_aux (h1 : IHeap) (e : Int) (nn : IHNode)
    (len : h1.buffer.length = h1.capacity)
    (size_le : h1.size ≤ h1.capacity)
    (hodd : h1.count + 1 = 2 * h1.size)
    (hc1pos : 1 ≤ h1.count)
    (lb1 : ∀ i, i < h1.count → (bget h1.buffer 0).d0 ≤ elem_at h1.buffer i)
    (ub1 : 2 ≤ h1.count → ∀ i, i < h1.count → elem_at h1.buffer i ≤ (bget h1.buffer 0).d1)
    (hnn : (nn = ⟨e, (bget h1.buffer (h1.size - 1)).d0⟩ ∧
            e ≤ (bget h1.buffer (h1.size - 1)).d0) ∨
           (nn = ⟨(bget h1.buffer (h1.size - 1)).d0, e⟩ ∧
            (bget h1.buffer (h1.size - 1)).d0 ≤ e)) :
    (ih_insert_tail (place_odd h1 nn) e).buffer.length = h1.capacity ∧
    (ih_insert_tail (place_odd h1 nn) e).capacity = h1.capacity ∧
    (ih_insert_tail (place_odd h1 nn) e).count = h1.count + 1 ∧
    ((ih_insert_tail (place_odd h1 nn) e).count =
      2 * (ih_insert_tail (place_odd h1 nn) e).size ∨
     (ih_insert_tail (place_odd h1 nn) e).count + 1 =
      2 * (ih_insert_tail (place_odd h1 nn) e).size) ∧
    (ih_insert_tail (place_odd h1 nn) e).size ≤ h1.capacity ∧
    (∀ i, i < (ih_insert_tail (place_odd h1 nn) e).count →
      (bget (ih_insert_tail (place_odd h1 nn) e).buffer 0).d0 ≤
      elem_at (ih_insert_tail (place_odd h1 nn) e).buffer i) ∧
    (∀ i, i < (ih_insert_tail (place_odd h1 nn) e).count →
      elem_at (ih_insert_tail (place_odd h1 nn) e).buffer i ≤
      (bget (ih_insert_tail (place_odd h1 nn) e).buffer 0).d1) := by
  have hsz1 : 1 ≤ h1.size := by omega
  have htlt : h1.size - 1 < h1.buffer.length := by omega
  have hnew : bget (place_odd h1 nn).buffer (h1.size - 1) = nn := by
    simp only [place_odd]
    exact bget_bset_self htlt nn
  have hnode_elem : (bget h1.buffer (h1.size - 1)).d0 = elem_at h1.buffer (h1.count - 1) := by
    rw [show h1.count - 1 = 2 * (h1.size - 1) by omega, elem_at_even]
  have hnode_lo : (bget h1.buffer 0).d0 ≤ (bget h1.buffer (h1.size - 1)).d0 := by
    rw [hnode_elem]
    exact lb1 _ (by omega)
  have hpres : ∀ i, i < h1.count - 1 →
      elem_at (place_odd h1 nn).buffer i = elem_at h1.buffer i := by
    intro i hi
    simp only [place_odd]
    unfold elem_at
    rw [bget_bset_ne (show h1.size - 1 ≠ i / 2 by omega)]
  have hd0nn : nn.d0 = e ∨ (nn.d0 = (bget h1.buffer (h1.size - 1)).d0 ∧
      (bget h1.buffer (h1.size - 1)).d0 ≤ e) := by
    rcases hnn with ⟨rfl, hle⟩ | ⟨rfl, hle⟩
    · exact Or.inl rfl
    · exact Or.inr ⟨rfl, hle⟩
  have hd1nn : nn.d1 = e ∨ (nn.d1 = (bget h1.buffer (h1.size - 1)).d0 ∧
      e ≤ (bget h1.buffer (h1.size - 1)).d0) := by
    rcases hnn with ⟨rfl, hle⟩ | ⟨rfl, hle⟩
    · exact Or.inr ⟨rfl, hle⟩
    · exact Or.inl rfl
  have hd01 : nn.d0 ≤ nn.d1 := by
    rcases hnn with ⟨rfl, hle⟩ | ⟨rfl, hle⟩ <;> exact hle
  have hfields : (place_odd h1 nn).count = h1.count + 1 ∧ (place_odd h1 nn).size = h1.size ∧
      (place_odd h1 nn).capacity = h1.capacity ∧
      (place_odd h1 nn).buffer.length = h1.buffer.length :=
    ⟨rfl, rfl, rfl, length_bset ..⟩
  obtain ⟨Pc, Ps, Pcap, Plen⟩ := hfields
  by_cases hsmall : h1.count + 1 ≤ 2
  · -- count goes 1 -> 2: the root node is the rewritten one
    have hc1 : h1.count = 1 := by omega
    have hs1 : h1.size = 1 := by omega
    have htail : ih_insert_tail (place_odd h1 nn) e = place_odd h1 nn := by
      unfold ih_insert_tail
      rw [if_pos (show ih_count (place_odd h1 nn) ≤ 2 from by
        simp only [ih_count, Pc]; omega)]
    rw [htail]
    have hroot : bget (place_odd h1 nn).buffer 0 = nn := by
      rw [show (0 : Nat) = h1.size - 1 by omega]
      exact hnew
    rw [Pc, Ps, Pcap, Plen]
    refine ⟨len, rfl, rfl, by omega, by omega, ?_, ?_⟩
    · intro i hi
      rw [hroot]
      have hi01 : i = 0 ∨ i = 1 := by omega
      rcases hi01 with rfl | rfl
      · rw [show (0 : Nat) = 2 * 0 from rfl, elem_at_even,
          show (0 : Nat) = h1.size - 1 by omega, hnew]
      · rw [show (1 : Nat) = 2 * 0 + 1 from rfl, elem_at_odd,
          show (0 : Nat) = h1.size - 1 by omega, hnew]
        exact hd01
    · intro i hi
      rw [hroot]
      have hi01 : i = 0 ∨ i = 1 := by omega
      rcases hi01 with rfl | rfl
      · rw [show (0 : Nat) = 2 * 0 from rfl, elem_at_even,
          show (0 : Nat) = h1.size - 1 by omega, hnew]
        exact hd01
      · rw [show (1 : Nat) = 2 * 0 + 1 from rfl, elem_at_odd,
          show (0 : Nat) = h1.size - 1 by omega, hnew]
  · -- count1 ≥ 3 (odd), size1 ≥ 2
    have hc2 : 2 ≤ h1.count := by omega
    have hsz2 : 2 ≤ h1.size := by omega
    have hnode_hi : (bget h1.buffer (h1.size - 1)).d0 ≤ (bget h1.buffer 0).d1 := by
      rw [hnode_elem]
      exact ub1 hc2 _ (by omega)
    have T := insert_tail_WF h1 (place_odd h1 nn) e hc2 Pc (by omega)
      (by rw [Plen, Pcap]; exact len) (by omega) (by omega)
      (by
        intro j hj
        rw [Ps] at hj
        simp only [place_odd]
        exact bget_bset_ne (by omega) _)
      lb1 (ub1 hc2)
      (by
        intro i hi
        rw [Pc] at hi
        rcases lt_trichotomy i (h1.count - 1) with hiold | hieq | hinew
        · rw [hpres i hiold]
          have := lb1 i (by omega)
          omega
        · subst hieq
          rw [show h1.count - 1 = 2 * (h1.size - 1) by omega, elem_at_even, hnew]
          rcases hd0nn with hv | ⟨hv, hle⟩
          · rw [hv]; omega
          · rw [hv]
            have := hnode_lo
            omega
        · have hie : i = h1.count := by omega
          subst hie
          rw [show h1.count = 2 * (h1.size - 1) + 1 by omega, elem_at_odd, hnew]
          rcases hd1nn with hv | ⟨hv, hle⟩
          · rw [hv]; omega
          · rw [hv]
            have := hnode_lo
            omega)
      (by
        intro i hi
        rw [Pc] at hi
        rcases lt_trichotomy i (h1.count - 1) with hiold | hieq | hinew
        · rw [hpres i hiold]
          have := ub1 hc2 i (by omega)
          omega
        · subst hieq
          rw [show h1.count - 1 = 2 * (h1.size - 1) by omega, elem_at_even, hnew]
          rcases hd0nn with hv | ⟨hv, hle⟩
          · rw [hv]; omega
          · rw [hv]; omega
        · have hie : i = h1.count := by omega
          subst hie
          rw [show h1.count = 2 * (h1.size - 1) + 1 by omega, elem_at_odd, hnew]
          rcases hd1nn with hv | ⟨hv, hle⟩
          · rw [hv]; omega
          · rw [hv]; omega)
      (by
        rw [Ps, hnew]
        rcases hd0nn with hv | ⟨hv, hle⟩
        · exact Or.inl hv
        · refine Or.inr ⟨?_, by omega⟩
          rw [hv]
          exact hnode_lo)
      (by
        rw [Ps, Pc, hnew]
        rw [if_neg (show ¬((h1.count + 1) % 2 ≠ 0) by omega)]
        rcases hd1nn with hv | ⟨hv, hle⟩
        · exact Or.inl hv
        · exact Or.inr ⟨by omega, by omega⟩)
    obtain ⟨Tc, Ts, Tcap, Tlen, Tlb, Tub⟩ := T
    rw [Pc] at Tc Tlb Tub
    rw [Ps] at Ts
    rw [Pcap] at Tcap
    rw [Plen] at Tlen
    refine ⟨?_, ?_, ?_, ?_, ?_, ?_, ?_⟩
    · rw [Tlen]
      exact len
    · rw [Tcap]
    · rw [Tc]
    · rw [Tc, Ts]
      omega
    · rw [Ts]
      omega
    · intro i hi
      rw [Tc] at hi
      exact Tlb i (by omega)
    · intro i hi
      rw [Tc] at hi
      exact Tub i (by omega)

/-- The growth-free part of `insert` preserves the structural invariant
and the min/max bounds, incrementing `count` by one. -/
theorem insert_core_WF (h1 : IHeap) (e : Int)
    (len : h1.buffer.length = h1.capacity)
    (size_le : h1.size ≤ h1.capacity)
    (slack : h1.count % 2 = 0 → h1.size < h1.capacity)
    (cs : h1.count = 2 * h1.size ∨ h1.count + 1 = 2 * h1.size)
    (lb1 : ∀ i, i < h1.count → (bget h1.buffer 0).d0 ≤ elem_at h1.buffer i)
    (ub1 : 2 ≤ h1.count → ∀ i, i < h1.count → elem_at h1.buffer i ≤ (bget h1.buffer 0).d1) :
    (ih_insert_core h1 e).buffer.length = h1.capacity ∧
    (ih_insert_core h1 e).capacity = h1.capacity ∧
    (ih_insert_core h1 e).count = h1.count + 1 ∧
    ((ih_insert_core h1 e).count = 2 * (ih_insert_core h1 e).size ∨
      (ih_insert_core h1 e).count + 1 = 2 * (ih_insert_core h1 e).size) ∧
    (ih_insert_core h1 e).size ≤ h1.capacity ∧
    (∀ i, i < (ih_insert_core h1 e).count →
      (bget (ih_insert_core h1 e).buffer 0).d0 ≤ elem_at (ih_insert_core h1 e).buffer i) ∧
    (2 ≤ (ih_insert_core h1 e).count → ∀ i, i < (ih_insert_core h1 e).count →
      elem_at (ih_insert_core h1 e).buffer i ≤ (bget (ih_insert_core h1 e).buffer 0).d1) := by
  by_cases hpar : ih_count h1 % 2 = 0
  · -- even count: open a new node ⟨e, 0⟩ at index size
    have hc_even : h1.count = 2 * h1.size := by
      rcases cs with hcs | hcs
      · exact hcs
      · simp only [ih_count] at hpar; omega
    have hsizelt : h1.size < h1.capacity := slack (by simpa [ih_count] using hpar)
    have hcore : ih_insert_core h1 e = ih_insert_tail
        { buffer := bset h1.buffer h1.size ⟨e, 0⟩, capacity := h1.capacity,
          size := h1.size + 1, count := h1.count + 1 } e := by
      unfold ih_insert_core ih_insert_place
      rw [if_pos hpar]
    have hnew0 : bget (bset h1.buffer h1.size ⟨e, 0⟩) h1.size = ⟨e, 0⟩ :=
      bget_bset_self (by omega) _
    have hpres : ∀ i, i < h1.count →
        elem_at (bset h1.buffer h1.size ⟨e, 0⟩) i = elem_at h1.buffer i := by
      intro i hi
      unfold elem_at
      rw [bget_bset_ne (show h1.size ≠ i / 2 by omega)]
    by_cases hsmall : h1.count + 1 ≤ 2
    · -- count goes 0 -> 1
      have hc0 : h1.count = 0 := by omega
      have hs0 : h1.size = 0 := by omega
      have htail : ih_insert_core h1 e =
          { buffer := bset h1.buffer h1.size ⟨e, 0⟩, capacity := h1.capacity,
            size := h1.size + 1, count := h1.count + 1 } := by
        rw [hcore]
        unfold ih_insert_tail
        rw [if_pos (by simp only [ih_count]; omega)]
      rw [htail]
      refine ⟨by dsimp only; rw [length_bset]; exact len, rfl, rfl,
        by dsimp only; omega, by dsimp only; omega, ?_, ?_⟩
      · intro i hi
        dsimp only at hi ⊢
        have hi0 : i = 0 := by omega
        subst hi0
        unfold elem_at
        simp
      · intro h2c
        dsimp only at h2c
        omega
    · -- count1 ≥ 2
      have hc2 : 2 ≤ h1.count := by omega
      have hsz1 : 1 ≤ h1.size := by omega
      rw [hcore]
      have T := insert_tail_WF h1
        { buffer := bset h1.buffer h1.size ⟨e, 0⟩, capacity := h1.capacity,
          size := h1.size + 1, count := h1.count + 1 } e hc2 rfl (by dsimp only; omega)
        (by dsimp only; rw [length_bset]; omega) (by dsimp only; omega)
        (by dsimp only; omega)
        (by
          intro j hj
          dsimp only at hj ⊢
          exact bget_bset_ne (by omega) _)
        lb1 (ub1 hc2)
        (by
          intro i hi
          dsimp only at hi ⊢
          rcases lt_or_ge i h1.count with hiold | hinew
          · rw [hpres i hiold]
            have := lb1 i hiold
            omega
          · have hie : i = 2 * h1.size := by omega
            subst hie
            rw [elem_at_even, hnew0]
            dsimp only
            omega)
        (by
          intro i hi
          dsimp only at hi ⊢
          rcases lt_or_ge i h1.count with hiold | hinew
          · rw [hpres i hiold]
            have := ub1 hc2 i hiold
            omega
          · have hie : i = 2 * h1.size := by omega
            subst hie
            rw [elem_at_even, hnew0]
            dsimp only
            omega)
        (by
          rw [show h1.size + 1 - 1 = h1.size from rfl, hnew0]
          exact Or.inl rfl)
        (by
          rw [show h1.size + 1 - 1 = h1.size from rfl, hnew0]
          rw [if_pos (show (h1.count + 1) % 2 ≠ 0 by omega)]
          exact Or.inl rfl)
      obtain ⟨Tc, Ts, Tcap, Tlen, Tlb, Tub⟩ := T
      try dsimp only at Tc Ts Tcap Tlen
      refine ⟨?_, ?_, ?_, ?_, ?_, ?_, ?_⟩
      · rw [Tlen]
        try dsimp only
        rw [length_bset]
        exact len
      · rw [Tcap]
      · rw [Tc]
      · rw [Tc, Ts]
        omega
      · rw [Ts]
        omega
      · intro i hi
        rw [Tc] at hi
        exact Tlb i (by try dsimp only; omega)
      · intro h2c i hi
        rw [Tc] at hi
        exact Tub i (by try dsimp only; omega)
  · -- odd count: complete the last node (with or without the local swap)
    have hc_odd : h1.count + 1 = 2 * h1.size := by
      rcases cs with hcs | hcs
      · simp only [ih_count] at hpar; omega
      · exact hcs
    have hc1pos : 1 ≤ h1.count := by
      simp only [ih_count] at hpar
      omega
    by_cases hswap : 0 < intCmp (bget h1.buffer (h1.size - 1)).d0 e
    · have hcore : ih_insert_core h1 e =
          ih_insert_tail (place_odd h1 ⟨e, (bget h1.buffer (h1.size - 1)).d0⟩) e := by
        unfold ih_insert_core ih_insert_place place_odd
        rw [if_neg hpar, if_pos hswap]
      rw [hcore]
      rw [intCmp_pos_iff] at hswap
      have A := insert_core_odd_aux h1 e _ len size_le hc_odd hc1pos lb1 ub1
        (Or.inl ⟨rfl, le_of_lt hswap⟩)
      exact ⟨A.1, A.2.1, A.2.2.1, A.2.2.2.1, A.2.2.2.2.1, A.2.2.2.2.2.1,
        fun _ => A.2.2.2.2.2.2⟩
    · have hcore : ih_insert_core h1 e =
          ih_insert_tail (place_odd h1 ⟨(bget h1.buffer (h1.size - 1)).d0, e⟩) e := by
        unfold ih_insert_core ih_insert_place place_odd
        rw [if_neg hpar, if_neg hswap]
      rw [hcore]
      rw [intCmp_pos_iff, not_lt] at hswap
      have A := insert_core_odd_aux h1 e _ len size_le hc_odd hc1pos lb1 ub1
        (Or.inr ⟨rfl, hswap⟩)
      exact ⟨A.1, A.2.1, A.2.2.1, A.2.2.2.1, A.2.2.2.2.1, A.2.2.2.2.2.1,
        fun _ => A.2.2.2.2.2.2⟩

/-- Well-formedness of a reachable heap: structural consistency of
`buffer`, `capacity`, `size` and `count`, plus the peek bounds — the
root's `data[0]` is a lower bound and (with at least two elements) its
`data[1]` an upper bound for every stored element. -/
structure IHWF (h : IHeap) : Prop where
  len : h.buffer.length = h.capacity
  cap_pos : 1 ≤ h.capacity
  cap_bound : h.capacity ≤ 9223372036854775807
  size_le : h.size ≤ h.capacity
  count_size : h.count = 2 * h.size ∨ h.count + 1 = 2 * h.size
  lb : ∀ i, i < h.count → (bget h.buffer 0).d0 ≤ elem_at h.buffer i
  ub : 2 ≤ h.count → ∀ i, i < h.count → elem_at h.buffer i ≤ (bget h.buffer 0).d1

/-- Reading inside the original part of an extended buffer. -/
theorem bget_append_left {buf : List IHNode} {j : Nat} (h : j < buf.length)
    (l2 : List IHNode) : bget (buf ++ l2) j = bget buf j := by
  unfold bget
  rw [List.getD_eq_getElem?_getD, List.getD_eq_getElem?_getD, List.getElem?_append_left h]

/-- `insert` preserves well-formedness, through all three paths: no
growth, successful growth to double node capacity, and the unreachable
wrap-around of `capacity * 4` where the resize request falls below
`count` and the insert fails leaving the heap unchanged. -/
theorem insert_WF (h : IHeap) (e : Int) (W : IHWF h) : IHWF (ih_insert h e).2 := by
  have hU : U64 = 18446744073709551616 := rfl
  by_cases hfull : ih_full h = true
  · have hsc : h.size = h.capacity ∧ h.count = 2 * h.size := by
      simp only [ih_full, Bool.and_eq_true, decide_eq_true_eq] at hfull
      have := W.size_le
      have := W.count_size
      omega
    by_cases hwrap : h.capacity * 4 < U64
    · -- the growth succeeds: capacity doubles, elements are preserved
      have hcpos := W.cap_pos
      have hres : ih_resize h (ih_capacity h * 4 % U64) =
          (true, { h with
            buffer := h.buffer.take (2 * h.capacity) ++
              List.replicate (2 * h.capacity - h.buffer.length) zeroNode,
            capacity := 2 * h.capacity }) := by
        have harg : ih_capacity h * 4 % U64 = h.capacity * 4 := Nat.mod_eq_of_lt hwrap
        unfold ih_resize
        rw [harg, if_neg (by omega), if_neg (by omega)]
        have hcap2 : (if h.capacity * 4 % 2 = 0 then h.capacity * 4 / 2
            else ((h.capacity * 4 + 1) % U64) / 2) = 2 * h.capacity := by
          rw [if_pos (by omega)]; omega
        simp only [hcap2]
      have htake : h.buffer.take (2 * h.capacity) = h.buffer :=
        List.take_of_length_le (by rw [W.len]; omega)
      have hlen1 : (h.buffer.take (2 * h.capacity) ++
          List.replicate (2 * h.capacity - h.buffer.length) zeroNode).length =
          2 * h.capacity := by
        rw [htake, List.length_append, List.length_replicate, W.len]
        omega
      have hpres1 : ∀ j, j < h.capacity →
          bget (h.buffer.take (2 * h.capacity) ++
            List.replicate (2 * h.capacity - h.buffer.length) zeroNode) j = bget h.buffer j := by
        intro j hj
        rw [htake]
        exact bget_append_left (by rw [W.len]; omega) _
      have hepres : ∀ i, i < h.count →
          elem_at (h.buffer.take (2 * h.capacity) ++
            List.replicate (2 * h.capacity - h.buffer.length) zeroNode) i =
          elem_at h.buffer i := by
        intro i hi
        unfold elem_at
        rw [hpres1 (i / 2) (by omega)]
      have hroot1 : bget (h.buffer.take (2 * h.capacity) ++
          List.replicate (2 * h.capacity - h.buffer.length) zeroNode) 0 = bget h.buffer 0 :=
        hpres1 0 (by omega)
      have hins : ih_insert h e = (true, ih_insert_core
          { h with
            buffer := h.buffer.take (2 * h.capacity) ++
              List.replicate (2 * h.capacity - h.buffer.length) zeroNode,
            capacity := 2 * h.capacity } e) := by
        unfold ih_insert
        rw [hfull]
        simp only [hres, if_true]
      rw [hins]
      have C := insert_core_WF
        { h with
          buffer := h.buffer.take (2 * h.capacity) ++
            List.replicate (2 * h.capacity - h.buffer.length) zeroNode,
          capacity := 2 * h.capacity } e
        (by simpa using hlen1) (by simp only []; omega) (by simp only []; omega)
        (by simp only []; omega)
        (by
          intro i hi
          simp only [] at hi ⊢
          rw [hroot1, hepres i hi]
          exact W.lb i hi)
        (by
          intro h2c i hi
          simp only [] at hi ⊢
          rw [hroot1, hepres i hi]
          exact W.ub h2c i hi)
      obtain ⟨Cl, Ccap, Cc, Ccs, Csz, Clb, Cub⟩ := C
      try dsimp only at Cl Ccap Cc Csz
      exact {
        len := by rw [Cl, Ccap]
        cap_pos := by rw [Ccap]; omega
        cap_bound := by rw [Ccap]; omega
        size_le := by rw [Ccap]; exact Csz
        count_size := Ccs
        lb := Clb
        ub := Cub }
    · -- the multiplication wraps: the resize request is below count and fails
      have hb := W.cap_bound
      have hc := W.cap_pos
      have hmod : h.capacity * 4 % U64 = h.capacity * 4 - U64 := by
        rw [Nat.mod_eq_sub_mod (le_of_not_lt hwrap)]
        exact Nat.mod_eq_of_lt (by omega)
      have hne : ¬(h.capacity = ih_capacity h * 4 % U64) := by
        simp only [ih_capacity]
        rw [hmod]
        omega
      have hlt : ih_capacity h * 4 % U64 < h.count := by
        simp only [ih_capacity]
        rw [hmod]
        omega
      have hres : ih_resize h (ih_capacity h * 4 % U64) = (false, h) := by
        unfold ih_resize
        rw [if_neg hne, if_pos hlt]
      have hins : ih_insert h e = (false, h) := by
        unfold ih_insert
        rw [hfull]
        simp [hres]
      rw [hins]
      exact W
  · -- not full: no growth, the core step applies directly
    have hslack : h.count % 2 = 0 → h.size < h.capacity := by
      intro hpar
      simp only [ih_full, Bool.and_eq_true, decide_eq_true_eq] at hfull
      have := W.size_le
      omega
    have hins : ih_insert h e = (true, ih_insert_core h e) := by
      unfold ih_insert
      rw [if_neg hfull]
    rw [hins]
    have C := insert_core_WF h e W.len W.size_le hslack W.count_size W.lb W.ub
    obtain ⟨Cl, Ccap, Cc, Ccs, Csz, Clb, Cub⟩ := C
    exact {
      len := by rw [Cl, Ccap]
      cap_pos := by rw [Ccap]; exact W.cap_pos
      cap_bound := by rw [Ccap]; exact W.cap_bound
      size_le := by rw [Ccap]; exact Csz
      count_size := Ccs
      lb := Clb
      ub := Cub }

/-- A newly created heap is well-formed. -/
theorem new_WF (cap : Nat) (h0 : IHeap) (hc : 1 ≤ cap) (hlt : cap < U64 - 1)
    (hnew : ih_new cap = some h0) : IHWF h0 := by
  simp only [U64] at hlt
  unfold ih_new at hnew
  rw [if_neg (by simp only [U64]; omega)] at hnew
  simp only [Option.some.injEq] at hnew
  subst hnew
  refine {
    len := by simp
    cap_pos := by simp only []; split_ifs <;> omega
    cap_bound := by simp only []; split_ifs <;> omega
    size_le := Nat.zero_le _
    count_size := Or.inl rfl
    lb := fun i hi => absurd hi (Nat.not_lt_zero i)
    ub := fun h2 => absurd h2 (Nat.not_succ_le_zero 1) }

/-- The growth-free insert step increments `count` by exactly one. -/
theorem count_ih_insert_core (h1 : IHeap) (e : Int) :
    (ih_insert_core h1 e).count = h1.count + 1 := by
  unfold ih_insert_core ih_insert_tail ih_insert_place
  dsimp only
  split_ifs <;> rfl

/-- `insert` either leaves `count` unchanged (failed growth) or
increments it. -/
theorem count_ih_insert (h : IHeap) (e : Int) :
    (ih_insert h e).2.count = h.count ∨ (ih_insert h e).2.count = h.count + 1 := by
  unfold ih_insert
  dsimp only
  split_ifs with h1 h2
  · right
    rw [count_ih_insert_core]
    have : (ih_resize h (ih_capacity h * 4 % U64)).2.count = h.count := by
      unfold ih_resize
      split_ifs <;> rfl
    rw [this]
  · left
    rfl
  · right
    exact count_ih_insert_core ..

/-- On a well-formed heap the count after an insert is positive (the
empty heap is never full, so its insert always succeeds). -/
theorem insert_pos_count (h : IHeap) (e : Int) (W : IHWF h) :
    1 ≤ (ih_insert h e).2.count := by
  by_cases hc0 : h.count = 0
  · have hs0 : h.size = 0 := by
      rcases W.count_size with hcs | hcs <;> omega
    have hnf : ¬(ih_full h = true) := by
      simp only [ih_full, Bool.and_eq_true, decide_eq_true_eq]
      have := W.cap_pos
      omega
    have hins : ih_insert h e = (true, ih_insert_core h e) := by
      unfold ih_insert
      rw [if_neg hnf]
    rw [hins]
    simp only []
    rw [count_ih_insert_core]
    omega
  · rcases count_ih_insert h e with hc | hc <;> omega

/-- Folding any list of inserts preserves well-formedness. -/
theorem insert_all_WF : ∀ (l : List Int) (h : IHeap), IHWF h → IHWF (ih_insert_all h l) := by
  intro l
  induction l with
  | nil => exact fun h W => W
  | cons e t ih =>
    intro h W
    have : ih_insert_all h (e :: t) = ih_insert_all (ih_insert h e).2 t := rfl
    rw [this]
    exact ih _ (insert_WF h e W)

/-- After a nonempty list of inserts the heap holds an element. -/
theorem insert_all_pos : ∀ (l : List Int) (h : IHeap), IHWF h →
    (1 ≤ h.count ∨ l ≠ []) → 1 ≤ (ih_insert_all h l).count := by
  intro l
  induction l with
  | nil =>
    intro h W hor
    rcases hor with hc | hne
    · exact hc
    · exact absurd rfl hne
  | cons e t ih =>
    intro h W hor
    have : ih_insert_all h (e :: t) = ih_insert_all (ih_insert h e).2 t := rfl
    rw [this]
    exact ih _ (insert_WF h e W) (Or.inl (insert_pos_count h e W))

/-- C1: for every sequence of insert calls on a heap created by
`new(cap)` (`1 ≤ cap < UINT64_MAX`), `peek_min` returns a value that is
at most every stored element and `peek_max` a value that is at least
every stored element.  Since `l` ranges over all insert sequences, this
holds in particular after each insert of a longer sequence (apply the
theorem to the prefix). -/
theorem claim_C1_peek_bounds (cap : Nat) (l : List Int) (h0 : IHeap)
    (hcap : 1 ≤ cap) (hcap2 : cap < U64 - 1)
    (hnew : ih_new cap = some h0) (hl : l ≠ []) :
    ∃ m M, ih_min (ih_insert_all h0 l) = some m ∧ ih_max (ih_insert_all h0 l) = some M ∧
      ∀ i, i < (ih_insert_all h0 l).count →
        m ≤ elem_at (ih_insert_all h0 l).buffer i ∧
        elem_at (ih_insert_all h0 l).buffer i ≤ M := by
  have W0 := new_WF cap h0 hcap hcap2 hnew
  have W := insert_all_WF l h0 W0
  have hpos := insert_all_pos l h0 W0 (Or.inr hl)
  refine ⟨(bget (ih_insert_all h0 l).buffer 0).d0,
    if (ih_insert_all h0 l).count = 1 then (bget (ih_insert_all h0 l).buffer 0).d0
    else (bget (ih_insert_all h0 l).buffer 0).d1, ?_, ?_, ?_⟩
  · unfold ih_min ih_empty
    rw [if_neg (by simp only [decide_eq_true_eq]; omega)]
  · unfold ih_max ih_empty ih_count
    rw [if_neg (by simp only [decide_eq_true_eq]; omega)]
    by_cases h1 : (ih_insert_all h0 l).count = 1
    · rw [if_pos h1, if_pos h1]
    · rw [if_neg h1, if_neg h1]
  · intro i hi
    refine ⟨W.lb i hi, ?_⟩
    by_cases h1 : (ih_insert_all h0 l).count = 1
    · rw [if_pos h1]
      have hi0 : i = 0 := by omega
      subst hi0
      rw [show (0 : Nat) = 2 * 0 from rfl, elem_at_even]
    · rw [if_neg h1]
      exact W.ub (by omega) i hi

/-- Witness for C1 at a concrete input: `new(4)` then inserting
`[3, 1, 2]` yields peeks that bound all stored elements. -/
theorem claim_C1_witness :
    ∃ m M, ih_min (ih_insert_all ((ih_new 4).getD dummyHeap) [3, 1, 2]) = some m ∧
      ih_max (ih_insert_all ((ih_new 4).getD dummyHeap) [3, 1, 2]) = some M ∧
      ∀ i, i < (ih_insert_all ((ih_new 4).getD dummyHeap) [3, 1, 2]).count →
        m ≤ elem_at (ih_insert_all ((ih_new 4).getD dummyHeap) [3, 1, 2]).buffer i ∧
        elem_at (ih_insert_all ((ih_new 4).getD dummyHeap) [3, 1, 2]).buffer i ≤ M :=
  claim_C1_peek_bounds 4 [3, 1, 2] ((ih_new 4).getD dummyHeap) (by omega)
    (by simp only [U64]; omega) (by rfl) (by simp)
